import Mathlib

/-!
# Market data aggregation (`internal/feed/yahoo.go`)

A shallow embedding of `FetchUSDExchangeRate` and `FetchMarketsDataFromYahoo`.

* `float64` values are kept abstract: the development is parametric in a type `F`
  of numbers; the two float operations the code performs itself (`*` and `!= 0`) are
  fields of `Env`.
* Index and slice expressions are checked: an access out of range yields `Panic`,
  as the Go run time does.
* Decoded responses are values: each task decodes into storage of its own, so the
  in-place update of line 116 is visible only to the iteration that makes it.
* The parts of the package that live in other files (`currencyToSymbol`,
  `percentChange`, `SvgPolylineCoordsFromYValues`, `maybeCopySliceWithoutZeroValues`)
  are fields of `Env`; the result of `workerPoolDo` and the replies of the network are
  parameters of the functions that use them.
-/

namespace Feed

/-! ## Definitions -/

/-! ### Go run-time behaviour -/

/-- Run-time panics raised by index and slice expressions. -/
inductive Panic where
  | indexOutOfRange (index : Int) (length : Nat)
  | sliceBoundsOutOfRange (low : Int) (length : Nat)
  deriving DecidableEq, Repr

/-- Go index expression `xs[i]` on a slice. -/
def index {α : Type} (xs : List α) (i : Int) : Except Panic α :=
  if i < 0 then .error (.indexOutOfRange i xs.length)
  else
    match xs[i.toNat]? with
    | some x => .ok x
    | none => .error (.indexOutOfRange i xs.length)

/-- Go slice expression `xs[low:]`. -/
def sliceFrom {α : Type} (xs : List α) (low : Int) : Except Panic (List α) :=
  if low < 0 ∨ (xs.length : Int) < low then .error (.sliceBoundsOutOfRange low xs.length)
  else .ok (xs.drop low.toNat)

/-! ### Data model -/

/-- The fields of `MarketRequest` that `yahoo.go` reads: the instrument symbol and the
preferred currency (empty when none was requested). -/
structure MarketRequest where
  Symbol : String
  Currency : String
  deriving DecidableEq, Repr

/-- The `meta` block of a chart result. -/
structure ChartMeta (F : Type) where
  Currency : String
  Symbol : String
  RegularMarketPrice : F
  ChartPreviousClose : F
  deriving DecidableEq, Repr

/-- One entry of `indicators.quote`. -/
structure QuoteEntry (F : Type) where
  Close : List F
  deriving DecidableEq, Repr

/-- The `indicators` block of a chart result. -/
structure ChartIndicators (F : Type) where
  Quote : List (QuoteEntry F)
  deriving DecidableEq, Repr

/-- One entry of `chart.result`. -/
structure ChartResult (F : Type) where
  Meta : ChartMeta F
  Indicators : ChartIndicators F
  deriving DecidableEq, Repr

/-- The `chart` block. -/
structure ChartBlock (F : Type) where
  Result : List (ChartResult F)
  deriving DecidableEq, Repr

/-- The decoded provider payload, `marketResponseJson`. -/
structure marketResponseJson (F : Type) where
  Chart : ChartBlock F
  deriving DecidableEq, Repr

/-- The fields of `Market` that `FetchMarketsDataFromYahoo` fills in. -/
structure Market (F : Type) where
  MarketRequest : MarketRequest
  Price : F
  Currency : String
  PercentChange : F
  SvgChartPoints : String
  deriving DecidableEq, Repr

/-- The two error sentinels of the package. -/
inductive Sentinel where
  | ErrNoContent
  | ErrPartialContent
  deriving DecidableEq, Repr

/-- The errors `FetchMarketsDataFromYahoo` returns.
* `sentinel s` is the sentinel value itself (`return nil, ErrNoContent`);
* `wrapCause s cause` is `fmt.Errorf("%w: %v", s, cause)`;
* `wrapFailed s failed` is `fmt.Errorf("%w: could not fetch data for %d market(s)", s, failed)`. -/
inductive FetchError where
  | sentinel (s : Sentinel)
  | wrapCause (s : Sentinel) (cause : String)
  | wrapFailed (s : Sentinel) (failed : Nat)
  deriving DecidableEq, Repr

/-- What `errors.Is(e, s)` answers for a returned error. -/
def FetchError.Is : FetchError → Sentinel → Bool
  | .sentinel s, t => decide (s = t)
  | .wrapCause s _, t => decide (s = t)
  | .wrapFailed s _, t => decide (s = t)

/-- The failure count formatted into the error message, when there is one. -/
def FetchError.failedCount : FetchError → Option Nat
  | .wrapFailed _ failed => some failed
  | _ => none

/-- The float operations of the code and the functions it calls from other files. -/
structure Env (F : Type) where
  /-- Operator `*` on `float64`. -/
  mul : F → F → F
  /-- The test `x != 0` on `float64`. -/
  neZero : F → Bool
  /-- The static table `currencyToSymbol`; `none` when the key is absent. -/
  currencyToSymbol : String → Option String
  /-- The function `percentChange(current, previous)`. -/
  percentChange : F → F → F
  /-- The function `SvgPolylineCoordsFromYValues(width, height, values)`. -/
  SvgPolylineCoordsFromYValues : Nat → Nat → List F → String
  /-- The function `maybeCopySliceWithoutZeroValues(values)`. -/
  maybeCopySliceWithoutZeroValues : List F → List F

/-- The constant `marketChartDays`. -/
def marketChartDays : Nat := 21

/-! ### The exchange-rate fetch -/

/-- Outcome of `http.Get(url)` followed by decoding the body: a transport error, or a
response with its status code and the result of `json.NewDecoder(resp.Body).Decode`
(`none` when decoding fails). -/
inductive HttpReply (F : Type) where
  | transportError (cause : String)
  | response (statusCode : Nat) (body : Option (marketResponseJson F))
  deriving DecidableEq, Repr

/-- URL requested by `FetchUSDExchangeRate`. -/
def exchangeRateURL (currency : String) : String :=
  "https://query1.finance.yahoo.com/v8/finance/chart/USD" ++ currency ++ "=X?range=1d&interval=1d"

/-- The function `FetchUSDExchangeRate`; `httpGet` is the network seen by this call. An
error is represented by its message; `Result[0]` is read only after the length test. -/
def FetchUSDExchangeRate {F : Type} (httpGet : String → HttpReply F) (currency : String) :
    Except String F :=
  match httpGet (exchangeRateURL currency) with
  | .transportError cause => .error ("failed to fetch exchange rate: " ++ cause)
  | .response statusCode body =>
    if statusCode ≠ 200 then .error ("unexpected status code: " ++ toString statusCode)
    else
      match body with
      | none => .error "failed to decode response"
      | some response =>
        match response.Chart.Result with
        | [] => .error "no result in response"
        | result0 :: _ => .ok result0.Meta.RegularMarketPrice

/-! ### The aggregation loop and the function -/

/-- What one iteration of the loop over `responses` does to the accumulators:
`failed++; continue`, a bare `continue`, or `markets = append(markets, m)`. -/
inductive Iteration (F : Type) where
  | failure
  | skipped
  | appended (m : Market F)
  deriving DecidableEq, Repr

/-- Lines 90-92: keep the last `marketChartDays` points. -/
def chartWindow {F : Type} (prices : List F) : Except Panic (List F) :=
  if prices.length > marketChartDays then
    sliceFrom prices ((prices.length : Int) - (marketChartDays : Int))
  else .ok prices

/-- Lines 94-98: the value of `previous` before any conversion. -/
def previousPrice {F : Type} (env : Env F) (regularMarketPrice : F) (prices : List F) :
    Except Panic F :=
  if prices.length ≥ 2 then
    match index prices ((prices.length : Int) - 2) with
    | .error p => .error p
    | .ok p => .ok (if env.neZero p then p else regularMarketPrice)
  else .ok regularMarketPrice

/-- Lines 102-106: the symbol of the native currency, the code itself when the table has
no entry. -/
def nativeSymbol {F : Type} (env : Env F) (code : String) : String :=
  match env.currencyToSymbol code with
  | some symbol => symbol
  | none => code

/-- Lines 122-131: the summary appended for an instrument. -/
def summary {F : Type} (env : Env F) (request : MarketRequest) (price previous : F)
    (currency points : String) : Market F :=
  { MarketRequest := request, Price := price, Currency := currency,
    PercentChange := env.percentChange price previous, SvgChartPoints := points }

/-- Lines 108-131: the optional conversion and the append. `fetchRate` is
`FetchUSDExchangeRate` on the network of this iteration; `meta` is
`response.Chart.Result[0].Meta`. -/
def convertAndSummarize {F : Type} (env : Env F) (fetchRate : String → Except String F)
    (request : MarketRequest) (meta : ChartMeta F) (previous : F) (currency points : String) :
    Iteration F :=
  if request.Currency ≠ "" then
    match fetchRate request.Currency with
    | .error _ => .skipped
    | .ok exchangeRate =>
      if meta.Currency = "USD" then
        -- a single-value map lookup yields "" for an absent key
        .appended (summary env request (env.mul meta.RegularMarketPrice exchangeRate)
          (env.mul previous exchangeRate) ((env.currencyToSymbol request.Currency).getD "") points)
      else .appended (summary env request meta.RegularMarketPrice previous currency points)
  else .appended (summary env request meta.RegularMarketPrice previous currency points)

/-- Lines 74-131: the body of `for i := range responses`. `httpGet` is the network as
seen by the exchange-rate fetch of this iteration. -/
def iteration {F : Type} (env : Env F) (httpGet : String → HttpReply F)
    (marketRequests : List MarketRequest) (responses : List (marketResponseJson F))
    (errs : List (Option String)) (i : Nat) : Except Panic (Iteration F) := do
  let erri ← index errs i
  if erri ≠ none then
    -- the log call reads marketRequests[i].Symbol
    let _ ← index marketRequests i
    return .failure
  let response ← index responses i
  if response.Chart.Result.length = 0 then
    let _ ← index marketRequests i
    return .failure
  let result0 ← index response.Chart.Result 0
  let quote0 ← index result0.Indicators.Quote 0
  let prices ← chartWindow quote0.Close
  let previous ← previousPrice env result0.Meta.RegularMarketPrice prices
  let points := env.SvgPolylineCoordsFromYValues 100 50 (env.maybeCopySliceWithoutZeroValues prices)
  let currency := nativeSymbol env result0.Meta.Currency
  let request ← index marketRequests i
  return convertAndSummarize env (FetchUSDExchangeRate httpGet) request result0.Meta previous
    currency points

/-- The accumulators `markets` and `failed`. -/
structure LoopState (F : Type) where
  markets : List (Market F)
  failed : Nat
  deriving DecidableEq, Repr

/-- Effect of one iteration on the accumulators. -/
def LoopState.apply {F : Type} (st : LoopState F) : Iteration F → LoopState F
  | .failure => { st with failed := st.failed + 1 }
  | .skipped => st
  | .appended m => { st with markets := st.markets ++ [m] }

/-- What `workerPoolDo(job)` returned: `responses`, `errs` and `err`. -/
structure PoolResult (F : Type) where
  responses : List (marketResponseJson F)
  errs : List (Option String)
  err : Option String

/-- URL of the chart request built for an instrument (lines 58-61). -/
def chartURL (symbol : String) : String :=
  "https://query1.finance.yahoo.com/v8/finance/chart/" ++ symbol ++ "?range=1mo&interval=1d"

/-- Lines 73-132: the loop over `responses`, from the empty accumulators. -/
def loopResponses {F : Type} (env : Env F) (httpGet : Nat → String → HttpReply F)
    (marketRequests : List MarketRequest) (responses : List (marketResponseJson F))
    (errs : List (Option String)) (n : Nat) : Except Panic (LoopState F) :=
  (List.range n).foldlM
    (fun st i => do
      let it ← iteration env (httpGet i) marketRequests responses errs i
      pure (st.apply it))
    { markets := [], failed := 0 }

/-- Lines 134-142: the returned pair, from the accumulators. -/
def conclude {F : Type} (st : LoopState F) : List (Market F) × Option FetchError :=
  if st.markets.length = 0 then ([], some (.sentinel .ErrNoContent))
  else if st.failed > 0 then (st.markets, some (.wrapFailed .ErrPartialContent st.failed))
  else (st.markets, none)

/-- The list of requests handed to the pool (lines 56-61), one URL per instrument. -/
def buildRequests (marketRequests : List MarketRequest) : List String :=
  marketRequests.map (fun r => chartURL r.Symbol)

/-- The function `FetchMarketsDataFromYahoo`. `pool` is the behaviour of `workerPoolDo`
on the list of requests (one URL per instrument) during this call, and `httpGet i` the
network as seen by the exchange-rate fetch of iteration `i`. The result is the returned
pair, or the panic that ends the call. -/
def FetchMarketsDataFromYahoo {F : Type} (env : Env F) (pool : List String → PoolResult F)
    (httpGet : Nat → String → HttpReply F) (marketRequests : List MarketRequest) :
    Except Panic (List (Market F) × Option FetchError) :=
  let res := pool (buildRequests marketRequests)
  match res.err with
  | some err => .ok ([], some (.wrapCause .ErrNoContent err))
  | none =>
    match loopResponses env httpGet marketRequests res.responses res.errs
        res.responses.length with
    | .error p => .error p
    | .ok st => .ok (conclude st)

/-! ### An environment for concrete runs -/

/-- Integer-valued numbers: `*` and `!= 0` as on integers; a small currency table;
the percent change left as the pair of its arguments packed in one number. -/
def intEnv : Env Int where
  mul := fun a b => a * b
  neZero := fun a => decide (a ≠ 0)
  currencyToSymbol := fun c =>
    if c = "USD" then some "$" else if c = "EUR" then some "€" else none
  percentChange := fun cur prev => cur * 1000 + prev
  SvgPolylineCoordsFromYValues := fun _ _ ys => toString ys
  maybeCopySliceWithoutZeroValues := fun ys => ys.filter (fun y => decide (y ≠ 0))

/-! ### Closed forms and observations used in the statements -/

/-- The value `previous` of lines 94-98 in closed form. -/
def previousOf {F : Type} (env : Env F) (regularMarketPrice : F) (prices : List F) : F :=
  match prices[prices.length - 2]? with
  | some p => if 2 ≤ prices.length ∧ env.neZero p = true then p else regularMarketPrice
  | none => regularMarketPrice

/-- The series after lines 90-92, in closed form: its last `marketChartDays` points. -/
def lastDays {F : Type} (close : List F) : List F :=
  close.drop (close.length - marketChartDays)

/-- The summary of an instrument whose response has the first result `result0` with first
quote series `close`, after the conversion step on `request`. -/
def summarize {F : Type} (env : Env F) (httpGet : String → HttpReply F)
    (request : MarketRequest) (result0 : ChartResult F) (close : List F) : Iteration F :=
  convertAndSummarize env (FetchUSDExchangeRate httpGet) request result0.Meta
    (previousOf env result0.Meta.RegularMarketPrice (lastDays close))
    (nativeSymbol env result0.Meta.Currency)
    (env.SvgPolylineCoordsFromYValues 100 50 (env.maybeCopySliceWithoutZeroValues (lastDays close)))

/-- The summary an iteration appends, if any. -/
def appendedOf {F : Type} : Except Panic (Iteration F) → Option (Market F)
  | .ok (.appended m) => some m
  | _ => none

/-- Whether an iteration ends in `failed++; continue`. -/
def isFailure {F : Type} : Except Panic (Iteration F) → Bool
  | .ok .failure => true
  | _ => false

/-- Whether an iteration ends in the bare `continue` of line 112. -/
def isSkipped {F : Type} : Except Panic (Iteration F) → Bool
  | .ok .skipped => true
  | _ => false

/-- The loop of `loopResponses` over an arbitrary list of indices and from arbitrary
accumulators. -/
def loopOver {F : Type} (f : Nat → Except Panic (Iteration F)) (l : List Nat)
    (st0 : LoopState F) : Except Panic (LoopState F) :=
  l.foldlM (fun st i => do
    let it ← f i
    pure (st.apply it)) st0

/-- Whether a response has a first result whose quote list is empty. -/
def quoteMissing {F : Type} (response : marketResponseJson F) : Bool :=
  match response.Chart.Result with
  | result0 :: _ => result0.Indicators.Quote.isEmpty
  | [] => false

/-- The first result of a response together with its first quote series, when both exist. -/
def firstSeries {F : Type} (response : marketResponseJson F) : Option (ChartResult F × List F) :=
  match response.Chart.Result with
  | result0 :: _ =>
    match result0.Indicators.Quote with
    | quote0 :: _ => some (result0, quote0.Close)
    | [] => none
  | [] => none

/-- Whether an executor outcome is counted as a failure by the loop: the task reported an
error, or the decoded result list is empty. -/
def outcomeFailed {F : Type} (outcome : marketResponseJson F × Option String) : Bool :=
  outcome.2.isSome || outcome.1.Chart.Result.isEmpty

/-! ### The worker pool -/

/-- Modelled from the spec: the state of the Worker Pool Executor, whose code is not in
`yahoo.go`. `queue` holds the inputs not yet taken by a worker, each with its index
("each worker [must] know/report its own index"); `running` holds the inputs being worked
on ("a fixed worker count ... excess inputs queue until a worker is free"); `slots` is the
index-aligned result collection ("one exclusively-owned output slot per input index"). -/
structure PoolState (I O : Type) where
  queue : List (Nat × I)
  running : List (Nat × I)
  slots : List (O × Option String)

/-- Modelled from the spec: the two things that happen in the pool, in any order the
scheduler chooses: a free worker takes the next queued input, or the worker at some
position of `running` completes its task. -/
inductive PoolEvent where
  | start
  | finish (worker : Nat)
  deriving DecidableEq, Repr

/-- Modelled from the spec: the effect of one event, `none` when the event cannot happen
in this state. A worker starts only while fewer than `workers` tasks run; a worker that
completes writes the outcome of `task` on its input, error included, into the slot of its
own index and nothing else ("one task's error never cancels or blocks others"). -/
def PoolState.step {I O : Type} (workers : Nat) (task : I → O × Option String)
    (st : PoolState I O) : PoolEvent → Option (PoolState I O)
  | .start =>
    match st.queue with
    | [] => none
    | item :: rest =>
      if st.running.length < workers then
        some { st with queue := rest, running := st.running ++ [item] }
      else none
  | .finish worker =>
    match st.running[worker]? with
    | none => none
    | some (i, input) =>
      some { st with running := st.running.eraseIdx worker, slots := st.slots.set i (task input) }

/-- Modelled from the spec: the pool before any worker starts: every input queued with its
index, every slot holding the zero value and no error. -/
def PoolState.initial {I O : Type} [Inhabited O] (data : List I) : PoolState I O :=
  { queue := data.enum, running := [], slots := List.replicate data.length (default, none) }

/-- Modelled from the spec: the pool after a sequence of events, `none` when one of them
cannot happen. -/
def PoolState.run {I O : Type} (workers : Nat) (task : I → O × Option String)
    (st : PoolState I O) (schedule : List PoolEvent) : Option (PoolState I O) :=
  schedule.foldlM (fun st ev => st.step workers task ev) st

/-- Modelled from the spec: the contract `run(inputs, task)` of the Worker Pool Executor
(`workerPoolDo`), for one interleaving `schedule` of its workers. An empty input list gives
empty lists and no top-level error; otherwise the lists are read after the completion
barrier, that is once nothing is queued and nothing runs. The result is `none` when
`schedule` is not a complete interleaving. -/
def workerPoolDo {I O : Type} [Inhabited O] (workers : Nat) (task : I → O × Option String)
    (data : List I) (schedule : List PoolEvent) :
    Option (List O × List (Option String) × Option String) :=
  if data.length = 0 then some ([], [], none)
  else
    match (PoolState.initial data).run workers task schedule with
    | none => none
    | some st =>
      if st.queue.length = 0 ∧ st.running.length = 0 then
        some (st.slots.map (fun s => s.1), st.slots.map (fun s => s.2), none)
      else none

/-- The schedule in which each input is started and completed before the next one. -/
def sequentialSchedule (n : Nat) : List PoolEvent :=
  (List.replicate n [PoolEvent.start, PoolEvent.finish 0]).flatten

/-- Invariant of the pool: one slot per input; every pending item carries the input of its
index; every index is pending or its slot holds the outcome of the task on its input. -/
def PoolState.Inv {I O : Type} (task : I → O × Option String) (data : List I)
    (st : PoolState I O) : Prop :=
  st.slots.length = data.length ∧
  (∀ p ∈ st.queue ++ st.running, data[p.1]? = some p.2) ∧
  (∀ j, j < data.length →
    (∃ p ∈ st.queue ++ st.running, p.1 = j) ∨ st.slots[j]? = data[j]?.map task)

/-! ### Concrete runs -/

/-- A result entry with the given `meta` values and quote list. -/
def resultEntry (currency : String) (price previousClose : Int) (quote : List (QuoteEntry Int)) :
    ChartResult Int :=
  { Meta := ⟨currency, "", price, previousClose⟩, Indicators := ⟨quote⟩ }

/-- A response with one result and one quote series. -/
def quoteResponse (currency : String) (price previousClose : Int) (close : List Int) :
    marketResponseJson Int :=
  { Chart := ⟨[resultEntry currency price previousClose [⟨close⟩]]⟩ }

/-- A response whose result list is empty (also the zero value left in the slot of a failed
task). -/
def emptyResponse : marketResponseJson Int := { Chart := ⟨[]⟩ }

/-- A response with one result whose `indicators.quote` list is empty. -/
def noQuoteResponse : marketResponseJson Int :=
  { Chart := ⟨[resultEntry "USD" 50 45 []]⟩ }

/-- A network on which every exchange-rate request fails. -/
def netDown : Nat → String → HttpReply Int := fun _ _ => .transportError "timeout"

/-- A network on which every exchange-rate request is answered with the given rate. -/
def netRate (rate : Int) : Nat → String → HttpReply Int :=
  fun _ _ => .response 200 (some (quoteResponse "" rate rate []))

/-- An executor run that returns the given outcomes and no top-level error. -/
def poolReturning (responses : List (marketResponseJson Int)) (errs : List (Option String)) :
    List String → PoolResult Int :=
  fun _ => { responses := responses, errs := errs, err := none }

/-- Run A: `AAA` is quoted in USD at 10 with closes 8, 9, 10 and requested in USD. -/
def usdRequests : List MarketRequest := [⟨"AAA", "USD"⟩]

/-- Run A: the executor outcome. -/
def usdPool : List String → PoolResult Int :=
  poolReturning [quoteResponse "USD" 10 7 [8, 9, 10]] [none]

/-- Run A: the summary returned when the rate fetch answers 2. -/
def usdSummary : Market Int :=
  { MarketRequest := ⟨"AAA", "USD"⟩, Price := 20, Currency := "$", PercentChange := 20018,
    SvgChartPoints := "[8, 9, 10]" }

/-- Run B: `AAA` is requested without preferred currency. -/
def flatRequests : List MarketRequest := [⟨"AAA", ""⟩]

/-- Run B: the executor outcome, a quote in USD at 50 with previous close 45 and closes
48, 0, 50 (the second-to-last point is a zero placeholder). -/
def flatPool : List String → PoolResult Int :=
  poolReturning [quoteResponse "USD" 50 45 [48, 0, 50]] [none]

/-- Run B: the summary returned. -/
def flatSummary : Market Int :=
  { MarketRequest := ⟨"AAA", ""⟩, Price := 50, Currency := "$", PercentChange := 50050,
    SvgChartPoints := "[48, 50]" }

/-- The summary of an instrument quoted in USD at 50 with closes 48, 49, 50 and no preferred
currency. -/
def plainSummary (symbol : String) : Market Int :=
  { MarketRequest := ⟨symbol, ""⟩, Price := 50, Currency := "$", PercentChange := 50049,
    SvgChartPoints := "[48, 49, 50]" }

/-- Run C: two requests without preferred currency. -/
def mixedRequests : List MarketRequest := [⟨"AAA", ""⟩, ⟨"BBB", ""⟩]

/-- Run C: the executor outcome, the first task failed and the second has data. -/
def mixedPool : List String → PoolResult Int :=
  poolReturning [emptyResponse, quoteResponse "USD" 50 45 [48, 49, 50]] [some "timeout", none]

/-- Run D: three requests without preferred currency. -/
def threeRequests : List MarketRequest := [⟨"AAA", ""⟩, ⟨"BBB", ""⟩, ⟨"CCC", ""⟩]

/-- Run D: the executor outcome, the first task failed, the second succeeded with an empty
result list, the third has data. -/
def threePool : List String → PoolResult Int :=
  poolReturning [emptyResponse, emptyResponse, quoteResponse "USD" 50 45 [48, 49, 50]]
    [some "timeout", none, none]

/-- A task for the pool model: the length of the input, and an error on input `b`. -/
def lengthTask (input : String) : Nat × Option String :=
  (input.length, if input = "b" then some "boom" else none)

/-! ## Theorems -/

/-! ### Index and slice expressions -/

theorem index_natCast {α : Type} (xs : List α) (i : Nat) :
    index xs (i : Int) =
      match xs[i]? with
      | some x => .ok x
      | none => .error (.indexOutOfRange i xs.length) := by
  unfold index
  have h : ¬ ((i : Int) < 0) := by omega
  simp [h]

theorem index_of_getElem? {α : Type} {xs : List α} {i : Nat} {x : α} (h : xs[i]? = some x) :
    index xs (i : Int) = .ok x := by
  rw [index_natCast, h]

theorem index_zero_cons {α : Type} (x : α) (xs : List α) : index (x :: xs) 0 = .ok x := by
  simp [index]

theorem index_zero_nil {α : Type} : index ([] : List α) 0 = .error (.indexOutOfRange 0 0) := by
  simp [index]

/-- The slice of lines 90-92 is always within bounds; it keeps the last
`marketChartDays` points. -/
theorem chartWindow_eq {F : Type} (prices : List F) :
    chartWindow prices = .ok (prices.drop (prices.length - marketChartDays)) := by
  unfold chartWindow sliceFrom
  split
  · rename_i h
    have h1 : ¬ ((prices.length : Int) - (marketChartDays : Int) < 0 ∨
        (prices.length : Int) < (prices.length : Int) - (marketChartDays : Int)) := by
      unfold marketChartDays at *
      omega
    rw [if_neg h1]
    congr 2
    omega
  · rename_i h
    have h1 : prices.length - marketChartDays = 0 := by omega
    simp [h1]

/-- The index expression of lines 96-97 is always within bounds. -/
theorem previousPrice_eq {F : Type} (env : Env F) (regularMarketPrice : F) (prices : List F) :
    previousPrice env regularMarketPrice prices
      = .ok (previousOf env regularMarketPrice prices) := by
  unfold previousPrice previousOf
  split
  · rename_i h
    have h2 : (prices.length : Int) - 2 = ((prices.length - 2 : Nat) : Int) := by omega
    have h3 : prices.length - 2 < prices.length := by omega
    rw [h2, index_natCast, List.getElem?_eq_getElem h3]
    simp only [ge_iff_le] at h
    simp [h]
  · rename_i h
    have h2 : ¬ (2 ≤ prices.length) := by omega
    cases hp : prices[prices.length - 2]? <;> simp [h2]

/-! ## One iteration, case by case -/

section
variable {F : Type} (env : Env F) (httpGet : String → HttpReply F)
  (marketRequests : List MarketRequest) (responses : List (marketResponseJson F))
  (errs : List (Option String)) (i : Nat)

theorem iteration_of_err {e : String} {request : MarketRequest}
    (herr : errs[i]? = some (some e)) (hreq : marketRequests[i]? = some request) :
    iteration env httpGet marketRequests responses errs i = .ok .failure := by
  simp [iteration, index_of_getElem? herr, index_of_getElem? hreq, bind, Except.bind, pure,
    Except.pure]

theorem iteration_of_empty {response : marketResponseJson F} {request : MarketRequest}
    (herr : errs[i]? = some none) (hresp : responses[i]? = some response)
    (hres : response.Chart.Result = []) (hreq : marketRequests[i]? = some request) :
    iteration env httpGet marketRequests responses errs i = .ok .failure := by
  simp [iteration, index_of_getElem? herr, index_of_getElem? hreq, index_of_getElem? hresp,
    hres, bind, Except.bind, pure, Except.pure]

theorem iteration_of_noQuote {response : marketResponseJson F} {result0 : ChartResult F}
    {rest : List (ChartResult F)}
    (herr : errs[i]? = some none) (hresp : responses[i]? = some response)
    (hres : response.Chart.Result = result0 :: rest) (hquote : result0.Indicators.Quote = []) :
    iteration env httpGet marketRequests responses errs i = .error (.indexOutOfRange 0 0) := by
  simp [iteration, index_of_getElem? herr, index_of_getElem? hresp, hres, hquote,
    index_zero_cons, index_zero_nil, bind, Except.bind, pure, Except.pure]

theorem iteration_of_quote {response : marketResponseJson F} {result0 : ChartResult F}
    {rest : List (ChartResult F)} {quote0 : QuoteEntry F} {quotes : List (QuoteEntry F)}
    {request : MarketRequest}
    (herr : errs[i]? = some none) (hresp : responses[i]? = some response)
    (hres : response.Chart.Result = result0 :: rest)
    (hquote : result0.Indicators.Quote = quote0 :: quotes)
    (hreq : marketRequests[i]? = some request) :
    iteration env httpGet marketRequests responses errs i
      = .ok (summarize env httpGet request result0 quote0.Close) := by
  simp [iteration, index_of_getElem? herr, index_of_getElem? hresp, index_of_getElem? hreq,
    hres, hquote, index_zero_cons, chartWindow_eq, previousPrice_eq, summarize, lastDays, bind,
    Except.bind, pure, Except.pure]

end

section
variable {F : Type} (env : Env F) (httpGet : String → HttpReply F)
  (marketRequests : List MarketRequest) (responses : List (marketResponseJson F))
  (errs : List (Option String)) (i : Nat)

theorem index_error_of_getElem? {α : Type} {xs : List α} {i : Nat} (h : xs[i]? = none) :
    index xs (i : Int) = .error (.indexOutOfRange i xs.length) := by
  rw [index_natCast, h]

/-- An iteration that does not panic read `errs[i]` and `marketRequests[i]`; it is a
failure when the task failed or the result list is empty, and otherwise the summary step
on the first result and its first quote series. -/
theorem iteration_inv {it : Iteration F}
    (h : iteration env httpGet marketRequests responses errs i = .ok it) :
    ∃ e request, errs[i]? = some e ∧ marketRequests[i]? = some request ∧
      ((e ≠ none ∧ it = .failure) ∨
       (e = none ∧ ∃ response, responses[i]? = some response ∧
         ((response.Chart.Result = [] ∧ it = .failure) ∨
          (∃ result0 rest quote0 quotes, response.Chart.Result = result0 :: rest ∧
            result0.Indicators.Quote = quote0 :: quotes ∧
            it = summarize env httpGet request result0 quote0.Close)))) := by
  cases herr : errs[i]? with
  | none =>
    simp [iteration, index_error_of_getElem? herr, bind, Except.bind] at h
  | some e =>
    cases hreq : marketRequests[i]? with
    | none =>
      exfalso
      cases e with
      | some msg =>
        simp [iteration, index_of_getElem? herr, index_error_of_getElem? hreq, bind,
          Except.bind] at h
      | none =>
        cases hresp : responses[i]? with
        | none =>
          simp [iteration, index_of_getElem? herr, index_error_of_getElem? hresp, bind,
            Except.bind, pure, Except.pure] at h
        | some response =>
          cases hres : response.Chart.Result with
          | nil =>
            simp [iteration, index_of_getElem? herr, index_of_getElem? hresp,
              index_error_of_getElem? hreq, hres, bind, Except.bind, pure, Except.pure] at h
          | cons result0 rest =>
            cases hquote : result0.Indicators.Quote with
            | nil =>
              rw [iteration_of_noQuote env httpGet marketRequests responses errs i herr hresp
                hres hquote] at h
              cases h
            | cons quote0 quotes =>
              simp [iteration, index_of_getElem? herr, index_of_getElem? hresp,
                index_error_of_getElem? hreq, hres, hquote, index_zero_cons, chartWindow_eq,
                previousPrice_eq, bind, Except.bind, pure, Except.pure] at h
    | some request =>
      refine ⟨e, request, rfl, rfl, ?_⟩
      cases e with
      | some msg =>
        rw [iteration_of_err env httpGet marketRequests responses errs i herr hreq] at h
        cases h
        exact Or.inl ⟨by simp, rfl⟩
      | none =>
        refine Or.inr ⟨rfl, ?_⟩
        cases hresp : responses[i]? with
        | none =>
          simp [iteration, index_of_getElem? herr, index_error_of_getElem? hresp, bind,
            Except.bind, pure, Except.pure] at h
        | some response =>
          refine ⟨response, rfl, ?_⟩
          cases hres : response.Chart.Result with
          | nil =>
            rw [iteration_of_empty env httpGet marketRequests responses errs i herr hresp hres
              hreq] at h
            cases h
            exact Or.inl ⟨rfl, rfl⟩
          | cons result0 rest =>
            cases hquote : result0.Indicators.Quote with
            | nil =>
              rw [iteration_of_noQuote env httpGet marketRequests responses errs i herr hresp
                hres hquote] at h
              cases h
            | cons quote0 quotes =>
              rw [iteration_of_quote env httpGet marketRequests responses errs i herr hresp
                hres hquote hreq] at h
              cases h
              exact Or.inr ⟨result0, rest, quote0, quotes, rfl, hquote, rfl⟩

end

/-! ## The loop as a whole -/

theorem loopOver_nil {F : Type} (f : Nat → Except Panic (Iteration F)) (st0 : LoopState F) :
    loopOver f [] st0 = .ok st0 := rfl

theorem loopOver_cons_ok {F : Type} (f : Nat → Except Panic (Iteration F)) (i : Nat)
    (l : List Nat) (st0 : LoopState F) {it : Iteration F} (h : f i = .ok it) :
    loopOver f (i :: l) st0 = loopOver f l (st0.apply it) := by
  simp [loopOver, List.foldlM_cons, h, bind, Except.bind, pure, Except.pure]

theorem loopOver_cons_error {F : Type} (f : Nat → Except Panic (Iteration F)) (i : Nat)
    (l : List Nat) (st0 : LoopState F) {p : Panic} (h : f i = .error p) :
    loopOver f (i :: l) st0 = .error p := by
  simp [loopOver, List.foldlM_cons, h, bind, Except.bind]

/-- When the loop completes, no iteration panicked, `markets` holds the appended summaries
in index order and `failed` counts the failure iterations. -/
theorem loopOver_ok {F : Type} (f : Nat → Except Panic (Iteration F)) (l : List Nat) :
    ∀ (st0 st : LoopState F), loopOver f l st0 = .ok st →
      (∀ i ∈ l, ∃ it, f i = .ok it) ∧
      st.markets = st0.markets ++ l.filterMap (fun i => appendedOf (f i)) ∧
      st.failed = st0.failed + l.countP (fun i => isFailure (f i)) := by
  induction l with
  | nil =>
    intro st0 st h
    rw [loopOver_nil] at h
    cases h
    simp
  | cons i l ih =>
    intro st0 st h
    cases hfi : f i with
    | error p =>
      rw [loopOver_cons_error f i l st0 hfi] at h
      cases h
    | ok it =>
      rw [loopOver_cons_ok f i l st0 hfi] at h
      obtain ⟨h1, h2, h3⟩ := ih _ _ h
      refine ⟨?_, ?_, ?_⟩
      · intro j hj
        rcases List.mem_cons.mp hj with rfl | hj
        · exact ⟨it, hfi⟩
        · exact h1 j hj
      · cases it <;>
          simp [h2, LoopState.apply, List.filterMap_cons, hfi, appendedOf]
      · cases it with
        | failure =>
          have hf : isFailure (f i) = true := by rw [hfi]; rfl
          simp only [h3, LoopState.apply, List.countP_cons, hf, if_true]
          omega
        | skipped =>
          have hf : isFailure (f i) = false := by rw [hfi]; rfl
          simp only [h3, LoopState.apply, List.countP_cons, hf, Bool.false_eq_true, if_false]
          omega
        | appended m =>
          have hf : isFailure (f i) = false := by rw [hfi]; rfl
          simp only [h3, LoopState.apply, List.countP_cons, hf, Bool.false_eq_true, if_false]
          omega

/-- The loop completes when no iteration panics. -/
theorem loopOver_total {F : Type} (f : Nat → Except Panic (Iteration F)) (l : List Nat) :
    ∀ (st0 : LoopState F), (∀ i ∈ l, ∃ it, f i = .ok it) →
      ∃ st, loopOver f l st0 = .ok st := by
  induction l with
  | nil => intro st0 _; exact ⟨st0, rfl⟩
  | cons i l ih =>
    intro st0 h
    obtain ⟨it, hit⟩ := h i (List.mem_cons_self i l)
    rw [loopOver_cons_ok f i l st0 hit]
    exact ih _ (fun j hj => h j (List.mem_cons_of_mem i hj))

/-- Every iteration that does not panic is a failure, a skip or an append. -/
theorem loopOver_count {F : Type} (f : Nat → Except Panic (Iteration F)) (l : List Nat)
    (h : ∀ i ∈ l, ∃ it, f i = .ok it) :
    (l.filterMap (fun i => appendedOf (f i))).length + l.countP (fun i => isFailure (f i))
      + l.countP (fun i => isSkipped (f i)) = l.length := by
  induction l with
  | nil => simp
  | cons i l ih =>
    obtain ⟨it, hit⟩ := h i (List.mem_cons_self i l)
    have ih1 := ih (fun j hj => h j (List.mem_cons_of_mem i hj))
    cases it with
    | failure =>
      have ha : appendedOf (f i) = none := by rw [hit]; rfl
      have hf : isFailure (f i) = true := by rw [hit]; rfl
      have hs : isSkipped (f i) = false := by rw [hit]; rfl
      simp only [List.filterMap_cons, List.countP_cons, ha, hf, hs, List.length_cons]
      simp only [if_true, Bool.false_eq_true, if_false]
      omega
    | skipped =>
      have ha : appendedOf (f i) = none := by rw [hit]; rfl
      have hf : isFailure (f i) = false := by rw [hit]; rfl
      have hs : isSkipped (f i) = true := by rw [hit]; rfl
      simp only [List.filterMap_cons, List.countP_cons, ha, hf, hs, List.length_cons]
      simp only [if_true, Bool.false_eq_true, if_false]
      omega
    | appended m =>
      have ha : appendedOf (f i) = some m := by rw [hit]; rfl
      have hf : isFailure (f i) = false := by rw [hit]; rfl
      have hs : isSkipped (f i) = false := by rw [hit]; rfl
      simp only [List.filterMap_cons, List.countP_cons, ha, hf, hs, List.length_cons]
      simp only [Bool.false_eq_true, if_false]
      omega

theorem loopResponses_eq_loopOver {F : Type} (env : Env F)
    (httpGet : Nat → String → HttpReply F)
    (marketRequests : List MarketRequest) (responses : List (marketResponseJson F))
    (errs : List (Option String)) (n : Nat) :
    loopResponses env httpGet marketRequests responses errs n
      = loopOver (fun i => iteration env (httpGet i) marketRequests responses errs i)
          (List.range n) { markets := [], failed := 0 } := rfl

/-! ## The function as a whole -/

section
variable {F : Type} (env : Env F) (pool : List String → PoolResult F)
  (httpGet : Nat → String → HttpReply F) (marketRequests : List MarketRequest)

theorem fetch_of_poolErr {cause : String}
    (h : (pool (buildRequests marketRequests)).err = some cause) :
    FetchMarketsDataFromYahoo env pool httpGet marketRequests
      = .ok ([], some (.wrapCause .ErrNoContent cause)) := by
  simp [FetchMarketsDataFromYahoo, h]

theorem fetch_of_state {st : LoopState F}
    (h : (pool (buildRequests marketRequests)).err = none)
    (hst : loopResponses env httpGet marketRequests (pool (buildRequests marketRequests)).responses
      (pool (buildRequests marketRequests)).errs
      (pool (buildRequests marketRequests)).responses.length = .ok st) :
    FetchMarketsDataFromYahoo env pool httpGet marketRequests = .ok (conclude st) := by
  simp [FetchMarketsDataFromYahoo, h, hst]

theorem fetch_inv {ms : List (Market F)} {e : Option FetchError}
    (h : FetchMarketsDataFromYahoo env pool httpGet marketRequests = .ok (ms, e)) :
    (∃ cause, (pool (buildRequests marketRequests)).err = some cause ∧ ms = [] ∧
      e = some (.wrapCause .ErrNoContent cause)) ∨
    ((pool (buildRequests marketRequests)).err = none ∧
      ∃ st, loopResponses env httpGet marketRequests
        (pool (buildRequests marketRequests)).responses
        (pool (buildRequests marketRequests)).errs
        (pool (buildRequests marketRequests)).responses.length = .ok st ∧
        conclude st = (ms, e)) := by
  cases herr : (pool (buildRequests marketRequests)).err with
  | some cause =>
    rw [fetch_of_poolErr env pool httpGet marketRequests herr] at h
    cases h
    exact Or.inl ⟨cause, rfl, rfl, rfl⟩
  | none =>
    refine Or.inr ⟨rfl, ?_⟩
    cases hst : loopResponses env httpGet marketRequests
        (pool (buildRequests marketRequests)).responses
        (pool (buildRequests marketRequests)).errs
        (pool (buildRequests marketRequests)).responses.length with
    | error p =>
      simp [FetchMarketsDataFromYahoo, herr, hst] at h
    | ok st =>
      rw [fetch_of_state env pool httpGet marketRequests herr hst] at h
      exact ⟨st, rfl, Except.ok.inj h⟩

end

theorem conclude_markets {F : Type} (st : LoopState F) : (conclude st).1 = st.markets := by
  unfold conclude
  split
  · rename_i h
    exact (List.length_eq_zero.mp h).symm
  · split <;> rfl

/-- The three shapes of the returned pair. -/
theorem conclude_cases {F : Type} (st : LoopState F) :
    (st.markets = [] ∧ conclude st = ([], some (.sentinel .ErrNoContent))) ∨
    (st.markets ≠ [] ∧ 0 < st.failed ∧
      conclude st = (st.markets, some (.wrapFailed .ErrPartialContent st.failed))) ∨
    (st.markets ≠ [] ∧ st.failed = 0 ∧ conclude st = (st.markets, none)) := by
  unfold conclude
  by_cases h : st.markets.length = 0
  · left
    exact ⟨List.length_eq_zero.mp h, by simp [h]⟩
  · have hne : st.markets ≠ [] := fun h0 => h (by simp [h0])
    by_cases hf : st.failed > 0
    · right; left
      exact ⟨hne, hf, by simp [h, hf]⟩
    · right; right
      exact ⟨hne, by omega, by simp [h, hf]⟩

/-- An iteration whose three reads are in range completes unless the task succeeded with a
first result that has no quote series. -/
theorem iteration_ok {F : Type} (env : Env F) (httpGet : String → HttpReply F)
    (marketRequests : List MarketRequest) (responses : List (marketResponseJson F))
    (errs : List (Option String)) (i : Nat) {e : Option String} {request : MarketRequest}
    {response : marketResponseJson F}
    (herr : errs[i]? = some e) (hreq : marketRequests[i]? = some request)
    (hresp : responses[i]? = some response) (hq : e = none → quoteMissing response = false) :
    ∃ it, iteration env httpGet marketRequests responses errs i = .ok it := by
  cases e with
  | some msg =>
    exact ⟨_, iteration_of_err env httpGet marketRequests responses errs i herr hreq⟩
  | none =>
    cases hres : response.Chart.Result with
    | nil =>
      exact ⟨_, iteration_of_empty env httpGet marketRequests responses errs i herr hresp hres
        hreq⟩
    | cons result0 rest =>
      cases hquote : result0.Indicators.Quote with
      | nil =>
        have := hq rfl
        simp [quoteMissing, hres, hquote] at this
      | cons quote0 quotes =>
        exact ⟨_, iteration_of_quote env httpGet marketRequests responses errs i herr hresp hres
          hquote hreq⟩

/-- The loop completes when the three lists have the same length and every response of a
successful task with a non-empty result list has a quote series. -/
theorem loopResponses_total {F : Type} (env : Env F) (httpGet : Nat → String → HttpReply F)
    (marketRequests : List MarketRequest) (responses : List (marketResponseJson F))
    (errs : List (Option String))
    (hlen : responses.length = marketRequests.length) (hlen2 : errs.length = marketRequests.length)
    (hq : ∀ (i : Nat) (response : marketResponseJson F), errs[i]? = some none →
      responses[i]? = some response →
      quoteMissing response = false) :
    ∃ st, loopResponses env httpGet marketRequests responses errs responses.length = .ok st := by
  rw [loopResponses_eq_loopOver]
  apply loopOver_total
  intro i hi
  have hi1 : i < responses.length := List.mem_range.mp hi
  have hi2 : i < errs.length := by omega
  have hi3 : i < marketRequests.length := by omega
  exact iteration_ok env (httpGet i) marketRequests responses errs i
    (List.getElem?_eq_getElem hi2) (List.getElem?_eq_getElem hi3) (List.getElem?_eq_getElem hi1)
    (fun he => hq i _ (by rw [List.getElem?_eq_getElem hi2, he]) (List.getElem?_eq_getElem hi1))

/-! ## C2 -/

/-- C2. Whenever `FetchMarketsDataFromYahoo` returns, its error is nil, or wraps
`ErrNoContent`, or wraps `ErrPartialContent`; the summaries are non-empty when the error is
nil or partial, and empty exactly when the error wraps `ErrNoContent`. The call does return
when the executor's lists are as long as the request list and every response of a
successful task with a non-empty result list has a quote series. When the executor's lists
are as long as the request list and every task carries an error, the result is no summaries
and an error wrapping `ErrNoContent`. -/
theorem C2_error_is_nil_noContent_or_partialContent {F : Type} (env : Env F)
    (pool : List String → PoolResult F) (httpGet : Nat → String → HttpReply F)
    (marketRequests : List MarketRequest) :
    (∀ ms e, FetchMarketsDataFromYahoo env pool httpGet marketRequests = .ok (ms, e) →
      (e = none ∨ (∃ err, e = some err ∧ err.Is .ErrNoContent = true) ∨
        (∃ err, e = some err ∧ err.Is .ErrPartialContent = true)) ∧
      ((e = none ∨ ∃ err, e = some err ∧ err.Is .ErrPartialContent = true) → ms ≠ []) ∧
      (ms = [] ↔ ∃ err, e = some err ∧ err.Is .ErrNoContent = true)) ∧
    ((pool (buildRequests marketRequests)).responses.length = marketRequests.length →
      (pool (buildRequests marketRequests)).errs.length = marketRequests.length →
      (∀ (i : Nat) (response : marketResponseJson F),
        (pool (buildRequests marketRequests)).errs[i]? = some none →
        (pool (buildRequests marketRequests)).responses[i]? = some response →
        quoteMissing response = false) →
      ∃ ms e, FetchMarketsDataFromYahoo env pool httpGet marketRequests = .ok (ms, e)) ∧
    ((pool (buildRequests marketRequests)).responses.length = marketRequests.length →
      (pool (buildRequests marketRequests)).errs.length = marketRequests.length →
      (∀ e ∈ (pool (buildRequests marketRequests)).errs, e ≠ none) →
      ∃ err, FetchMarketsDataFromYahoo env pool httpGet marketRequests = .ok ([], some err) ∧
        err.Is .ErrNoContent = true) := by
  refine ⟨?_, ?_, ?_⟩
  · intro ms e h
    rcases fetch_inv env pool httpGet marketRequests h with
      ⟨cause, _, hms, he⟩ | ⟨_, st, _, hc⟩
    · subst hms he
      simp [FetchError.Is]
    · rcases conclude_cases st with ⟨_, h2⟩ | ⟨h1, _, h2⟩ | ⟨h1, _, h2⟩
      · rw [h2] at hc
        cases hc
        simp [FetchError.Is]
      · rw [h2] at hc
        cases hc
        simp [FetchError.Is, h1]
      · rw [h2] at hc
        cases hc
        simp [h1]
  · intro hlen hlen2 hq
    cases herr : (pool (buildRequests marketRequests)).err with
    | some cause => exact ⟨_, _, fetch_of_poolErr env pool httpGet marketRequests herr⟩
    | none =>
      obtain ⟨st, hst⟩ := loopResponses_total env httpGet marketRequests _ _ hlen hlen2 hq
      exact ⟨_, _, fetch_of_state env pool httpGet marketRequests herr hst⟩
  · intro hlen hlen2 hall
    cases herr : (pool (buildRequests marketRequests)).err with
    | some cause =>
      exact ⟨_, fetch_of_poolErr env pool httpGet marketRequests herr, by simp [FetchError.Is]⟩
    | none =>
      have hq : ∀ (i : Nat) (response : marketResponseJson F),
          (pool (buildRequests marketRequests)).errs[i]? = some none →
          (pool (buildRequests marketRequests)).responses[i]? = some response →
          quoteMissing response = false := by
        intro i response h1 _
        exact absurd rfl (hall none (List.getElem?_mem h1))
      obtain ⟨st, hst⟩ := loopResponses_total env httpGet marketRequests _ _ hlen hlen2 hq
      have hfetch := fetch_of_state env pool httpGet marketRequests herr hst
      rw [loopResponses_eq_loopOver] at hst
      obtain ⟨_, hm, _⟩ := loopOver_ok _ _ _ _ hst
      have hnil : st.markets = [] := by
        rw [hm]
        simp only [List.nil_append, List.filterMap_eq_nil_iff]
        intro i hi
        have hi1 : i < (pool (buildRequests marketRequests)).responses.length :=
          List.mem_range.mp hi
        have hi2 : i < (pool (buildRequests marketRequests)).errs.length := by omega
        have hi3 : i < marketRequests.length := by omega
        have hget := List.getElem?_eq_getElem hi2
        cases hei : (pool (buildRequests marketRequests)).errs[i] with
        | none =>
          rw [hei] at hget
          exact absurd rfl (hall none (List.getElem?_mem hget))
        | some msg =>
          rw [hei] at hget
          rw [iteration_of_err env (httpGet i) marketRequests _ _ i hget
            (List.getElem?_eq_getElem hi3)]
          rfl
      rcases conclude_cases st with ⟨_, h2⟩ | ⟨h1, _, _⟩ | ⟨h1, _, _⟩
      · rw [h2] at hfetch
        exact ⟨_, hfetch, by simp [FetchError.Is]⟩
      · exact absurd hnil h1
      · exact absurd hnil h1

/-! ## Where a summary comes from -/

theorem appendedOf_eq_some {F : Type} {x : Except Panic (Iteration F)} {m : Market F}
    (h : appendedOf x = some m) : x = .ok (.appended m) := by
  cases x with
  | error p => simp [appendedOf] at h
  | ok it =>
    cases it with
    | failure => simp [appendedOf] at h
    | skipped => simp [appendedOf] at h
    | appended m2 =>
      simp only [appendedOf, Option.some.injEq] at h
      rw [h]

theorem summarize_request {F : Type} (env : Env F) (httpGet : String → HttpReply F)
    (request : MarketRequest) (result0 : ChartResult F) (close : List F) {m : Market F}
    (h : summarize env httpGet request result0 close = .appended m) :
    m.MarketRequest = request := by
  unfold summarize convertAndSummarize at h
  split at h
  · split at h
    · cases h
    · split at h <;>
        · cases h
          rfl
  · cases h
    rfl

/-- An iteration that appends `m` ran on a successful task whose response has a first
result with a first quote series, and `m` is the summary step on these and on
`marketRequests[i]`. -/
theorem iteration_appended_inv {F : Type} (env : Env F) (httpGet : String → HttpReply F)
    (marketRequests : List MarketRequest) (responses : List (marketResponseJson F))
    (errs : List (Option String)) (i : Nat) {m : Market F}
    (h : iteration env httpGet marketRequests responses errs i = .ok (.appended m)) :
    ∃ request response result0 close, marketRequests[i]? = some request ∧
      errs[i]? = some none ∧ responses[i]? = some response ∧
      firstSeries response = some (result0, close) ∧
      summarize env httpGet request result0 close = .appended m ∧ m.MarketRequest = request := by
  obtain ⟨e, request, herr, hreq, hcase⟩ :=
    iteration_inv env httpGet marketRequests responses errs i h
  rcases hcase with ⟨_, hit⟩ | ⟨he, response, hresp, hcase2⟩
  · cases hit
  · rcases hcase2 with ⟨_, hit⟩ | ⟨result0, rest, quote0, quotes, hres, hquote, hit⟩
    · cases hit
    · subst he
      refine ⟨request, response, result0, quote0.Close, hreq, herr, hresp, ?_, hit.symm, ?_⟩
      · simp [firstSeries, hres, hquote]
      · exact summarize_request env httpGet request result0 quote0.Close hit.symm

theorem forall2_filter_filterMap {α β : Type} (g : α → Option β) (l : List α) :
    List.Forall₂ (fun a b => g a = some b) (l.filter (fun a => (g a).isSome))
      (l.filterMap g) := by
  induction l with
  | nil => simp
  | cons a l ih =>
    cases hga : g a with
    | none => simpa [List.filter_cons, List.filterMap_cons, hga] using ih
    | some b =>
      simp only [List.filter_cons, List.filterMap_cons, hga, Option.isSome_some, if_true]
      exact List.Forall₂.cons hga ih

theorem filterMap_range_sublist {α : Type} (g : Nat → Option α) (l : List α)
    (hg : ∀ i x, g i = some x → l[i]? = some x) (n : Nat) :
    ((List.range n).filterMap g).Sublist (l.take n) := by
  induction n with
  | zero => simp
  | succ n ih =>
    rw [List.range_succ, List.filterMap_append, List.take_succ]
    apply List.Sublist.append ih
    cases hgn : g n with
    | none => simp [List.filterMap_cons, hgn]
    | some x => simp [List.filterMap_cons, hgn, hg n x hgn]

/-- When the call returns without a pool error, the returned summaries are those the loop
appended, in index order. -/
theorem fetch_markets {F : Type} (env : Env F) (pool : List String → PoolResult F)
    (httpGet : Nat → String → HttpReply F) (marketRequests : List MarketRequest)
    {ms : List (Market F)} {e : Option FetchError}
    (h : FetchMarketsDataFromYahoo env pool httpGet marketRequests = .ok (ms, e)) :
    ms = [] ∨
    ms = (List.range (pool (buildRequests marketRequests)).responses.length).filterMap
      (fun i => appendedOf (iteration env (httpGet i) marketRequests
        (pool (buildRequests marketRequests)).responses
        (pool (buildRequests marketRequests)).errs i)) := by
  rcases fetch_inv env pool httpGet marketRequests h with ⟨_, _, hms, _⟩ | ⟨_, st, hst, hc⟩
  · exact Or.inl hms
  · right
    have h1 := conclude_markets st
    rw [hc] at h1
    rw [loopResponses_eq_loopOver] at hst
    obtain ⟨_, hm, _⟩ := loopOver_ok _ _ _ _ hst
    simp only at h1
    rw [h1, hm]
    simp

/-- Every returned summary was appended by some iteration `i`. -/
theorem fetch_mem {F : Type} (env : Env F) (pool : List String → PoolResult F)
    (httpGet : Nat → String → HttpReply F) (marketRequests : List MarketRequest)
    {ms : List (Market F)} {e : Option FetchError}
    (h : FetchMarketsDataFromYahoo env pool httpGet marketRequests = .ok (ms, e))
    {m : Market F} (hm : m ∈ ms) :
    ∃ i, iteration env (httpGet i) marketRequests (pool (buildRequests marketRequests)).responses
      (pool (buildRequests marketRequests)).errs i = .ok (.appended m) := by
  rcases fetch_markets env pool httpGet marketRequests h with h0 | h1
  · rw [h0] at hm
    cases hm
  · rw [h1] at hm
    obtain ⟨i, _, hi⟩ := List.mem_filterMap.mp hm
    exact ⟨i, appendedOf_eq_some hi⟩

/-! ## C7 -/

/-- C7. When `FetchMarketsDataFromYahoo` returns, the `MarketRequest` fields of the
summaries form a sublist of the request list (same relative order), and the summaries
correspond, in order, to strictly increasing indices `i` such that the summary is the one
computed from `marketRequests[i]` and the first result and quote series of `responses[i]`,
the task at `i` having reported no error. -/
theorem C7_summaries_in_input_order {F : Type} (env : Env F)
    (pool : List String → PoolResult F) (httpGet : Nat → String → HttpReply F)
    (marketRequests : List MarketRequest) (ms : List (Market F)) (e : Option FetchError)
    (h : FetchMarketsDataFromYahoo env pool httpGet marketRequests = .ok (ms, e)) :
    (ms.map (fun m => m.MarketRequest)).Sublist marketRequests ∧
    ∃ indices : List Nat, indices.Pairwise (fun i j => i < j) ∧
      List.Forall₂
        (fun i m => ∃ request response result0 close,
          marketRequests[i]? = some request ∧
          (pool (buildRequests marketRequests)).errs[i]? = some none ∧
          (pool (buildRequests marketRequests)).responses[i]? = some response ∧
          firstSeries response = some (result0, close) ∧
          summarize env (httpGet i) request result0 close = .appended m ∧
          m.MarketRequest = request)
        indices ms := by
  rcases fetch_markets env pool httpGet marketRequests h with h0 | h1
  · subst h0
    exact ⟨by simp, [], List.Pairwise.nil, List.Forall₂.nil⟩
  · refine ⟨?_, ?_⟩
    · rw [h1, List.map_filterMap]
      refine (filterMap_range_sublist _ marketRequests ?_ _).trans (List.take_sublist _ _)
      intro i x hx
      simp only [Option.map_eq_some'] at hx
      obtain ⟨m, hm, hmx⟩ := hx
      obtain ⟨request, _, _, _, hreq, _, _, _, _, hmr⟩ :=
        iteration_appended_inv env (httpGet i) marketRequests _ _ i (appendedOf_eq_some hm)
      rw [hreq, ← hmx, hmr]
    · refine ⟨(List.range (pool (buildRequests marketRequests)).responses.length).filter
        (fun i => (appendedOf (iteration env (httpGet i) marketRequests
          (pool (buildRequests marketRequests)).responses
          (pool (buildRequests marketRequests)).errs i)).isSome), ?_, ?_⟩
      · exact (List.pairwise_lt_range _).sublist (List.filter_sublist _)
      · rw [h1]
        refine List.Forall₂.imp ?_ (forall2_filter_filterMap _ _)
        intro i m hm
        obtain ⟨request, response, result0, close, h1, h2, h3, h4, h5, h6⟩ :=
          iteration_appended_inv env (httpGet i) marketRequests _ _ i (appendedOf_eq_some hm)
        exact ⟨request, response, result0, close, h1, h2, h3, h4, h5, h6⟩

/-! ## Counting failures -/

theorem countP_range_eq_zip {α β : Type} (xs : List α) (ys : List β) (q : Nat → Bool)
    (p : α × β → Bool)
    (hq : ∀ (i : Nat) (x : α) (y : β), xs[i]? = some x → ys[i]? = some y → q i = p (x, y))
    (n : Nat) (hn : n ≤ (List.zip xs ys).length) :
    (List.range n).countP q = ((List.zip xs ys).take n).countP p := by
  induction n with
  | zero => simp
  | succ n ih =>
    have hlt : n < (List.zip xs ys).length := by omega
    have hz : (List.zip xs ys)[n]? = some (List.zip xs ys)[n] := List.getElem?_eq_getElem hlt
    obtain ⟨hx, hy⟩ := List.getElem?_zip_eq_some.mp hz
    rw [List.range_succ, List.countP_append, List.take_succ, List.countP_append, hz,
      ih (by omega), List.countP_singleton, hq n _ _ hx hy]
    simp [List.countP_singleton]

theorem summarize_appended_of_rate {F : Type} (env : Env F) (httpGet : String → HttpReply F)
    (request : MarketRequest) (result0 : ChartResult F) (close : List F)
    (hrate : request.Currency ≠ "" →
      ∃ rate, FetchUSDExchangeRate httpGet request.Currency = .ok rate) :
    ∃ m, summarize env httpGet request result0 close = .appended m := by
  unfold summarize convertAndSummarize
  split
  · rename_i hc
    obtain ⟨rate, hr⟩ := hrate hc
    rw [hr]
    simp only
    split <;> exact ⟨_, rfl⟩
  · exact ⟨_, rfl⟩

/-- Under the hypotheses of the amended C1, an iteration is a failure exactly when its
outcome is a failed one, and is never skipped. -/
theorem iteration_failure_iff {F : Type} (env : Env F) (httpGet : String → HttpReply F)
    (marketRequests : List MarketRequest) (responses : List (marketResponseJson F))
    (errs : List (Option String)) (i : Nat) {e : Option String} {request : MarketRequest}
    {response : marketResponseJson F}
    (herr : errs[i]? = some e) (hreq : marketRequests[i]? = some request)
    (hresp : responses[i]? = some response) (hq : e = none → quoteMissing response = false)
    (hrate : request.Currency ≠ "" →
      ∃ rate, FetchUSDExchangeRate httpGet request.Currency = .ok rate) :
    isFailure (iteration env httpGet marketRequests responses errs i)
      = outcomeFailed (response, e) ∧
    isSkipped (iteration env httpGet marketRequests responses errs i) = false := by
  cases e with
  | some msg =>
    rw [iteration_of_err env httpGet marketRequests responses errs i herr hreq]
    simp [isFailure, isSkipped, outcomeFailed]
  | none =>
    cases hres : response.Chart.Result with
    | nil =>
      rw [iteration_of_empty env httpGet marketRequests responses errs i herr hresp hres hreq]
      simp [isFailure, isSkipped, outcomeFailed, hres]
    | cons result0 rest =>
      cases hquote : result0.Indicators.Quote with
      | nil =>
        have := hq rfl
        simp [quoteMissing, hres, hquote] at this
      | cons quote0 quotes =>
        rw [iteration_of_quote env httpGet marketRequests responses errs i herr hresp hres
          hquote hreq]
        obtain ⟨m, hm⟩ :=
          summarize_appended_of_rate env httpGet request result0 quote0.Close hrate
        rw [hm]
        simp [isFailure, isSkipped, outcomeFailed, hres]

/-! ## C1 -/

/-- C1 (amended). Let the executor return no top-level error and outcome lists as long as
the request list, of which exactly `k` are failed outcomes (the task carries an error, or
its decoded result list is empty), with `0 < k < n`. If every other response has a quote
series and no exchange-rate fetch fails, `FetchMarketsDataFromYahoo` returns exactly
`n - k` summaries together with an error that wraps `ErrPartialContent` and reports the
failure count `k`. -/
theorem C1_partialContent_counts_failed_outcomes {F : Type} (env : Env F)
    (pool : List String → PoolResult F) (httpGet : Nat → String → HttpReply F)
    (marketRequests : List MarketRequest) (k : Nat)
    (hpool : (pool (buildRequests marketRequests)).err = none)
    (hlen : (pool (buildRequests marketRequests)).responses.length = marketRequests.length)
    (hlen2 : (pool (buildRequests marketRequests)).errs.length = marketRequests.length)
    (hk : (List.zip (pool (buildRequests marketRequests)).responses
      (pool (buildRequests marketRequests)).errs).countP outcomeFailed = k)
    (hk0 : 0 < k) (hkn : k < marketRequests.length)
    (hq : ∀ (i : Nat) (response : marketResponseJson F),
      (pool (buildRequests marketRequests)).errs[i]? = some none →
      (pool (buildRequests marketRequests)).responses[i]? = some response →
      quoteMissing response = false)
    (hrate : ∀ (i : Nat) (request : MarketRequest), marketRequests[i]? = some request →
      request.Currency ≠ "" →
      ∃ rate, FetchUSDExchangeRate (httpGet i) request.Currency = .ok rate) :
    ∃ ms err, FetchMarketsDataFromYahoo env pool httpGet marketRequests = .ok (ms, some err) ∧
      ms.length = marketRequests.length - k ∧
      err.Is .ErrPartialContent = true ∧ err.failedCount = some k := by
  obtain ⟨st, hst⟩ := loopResponses_total env httpGet marketRequests _ _ hlen hlen2 hq
  have hfetch := fetch_of_state env pool httpGet marketRequests hpool hst
  rw [loopResponses_eq_loopOver] at hst
  obtain ⟨hall, hm, hf⟩ := loopOver_ok _ _ _ _ hst
  have hcount := loopOver_count _ _ hall
  have hpoint : ∀ i, i < (pool (buildRequests marketRequests)).responses.length →
      ∀ (x : marketResponseJson F) (y : Option String),
      (pool (buildRequests marketRequests)).responses[i]? = some x →
      (pool (buildRequests marketRequests)).errs[i]? = some y →
      isFailure (iteration env (httpGet i) marketRequests
        (pool (buildRequests marketRequests)).responses
        (pool (buildRequests marketRequests)).errs i) = outcomeFailed (x, y) ∧
      isSkipped (iteration env (httpGet i) marketRequests
        (pool (buildRequests marketRequests)).responses
        (pool (buildRequests marketRequests)).errs i) = false := by
    intro i hi x y hx hy
    have hi3 : i < marketRequests.length := by omega
    exact iteration_failure_iff env (httpGet i) marketRequests _ _ i hy
      (List.getElem?_eq_getElem hi3) hx
      (fun he => hq i x (by rw [hy, he]) hx)
      (hrate i _ (List.getElem?_eq_getElem hi3))
  have hzlen : (List.zip (pool (buildRequests marketRequests)).responses
      (pool (buildRequests marketRequests)).errs).length
      = (pool (buildRequests marketRequests)).responses.length := by
    rw [List.length_zip, hlen, hlen2, Nat.min_self]
  have hfailed : (List.range (pool (buildRequests marketRequests)).responses.length).countP
      (fun i => isFailure (iteration env (httpGet i) marketRequests
        (pool (buildRequests marketRequests)).responses
        (pool (buildRequests marketRequests)).errs i)) = k := by
    rw [← hk]
    have hle : (pool (buildRequests marketRequests)).responses.length
        ≤ (List.zip (pool (buildRequests marketRequests)).responses
            (pool (buildRequests marketRequests)).errs).length := by omega
    have hlt : ∀ (i : Nat) (x : marketResponseJson F) (y : Option String),
        (pool (buildRequests marketRequests)).responses[i]? = some x →
        (pool (buildRequests marketRequests)).errs[i]? = some y →
        isFailure (iteration env (httpGet i) marketRequests
          (pool (buildRequests marketRequests)).responses
          (pool (buildRequests marketRequests)).errs i) = outcomeFailed (x, y) := by
      intro i x y hx hy
      have hi : i < (pool (buildRequests marketRequests)).responses.length := by
        by_contra hcon
        rw [List.getElem?_eq_none (by omega)] at hx
        cases hx
      exact (hpoint i hi x y hx hy).1
    rw [countP_range_eq_zip _ _ _ outcomeFailed hlt _ hle, ← hzlen, List.take_length]
  have hskipped : (List.range (pool (buildRequests marketRequests)).responses.length).countP
      (fun i => isSkipped (iteration env (httpGet i) marketRequests
        (pool (buildRequests marketRequests)).responses
        (pool (buildRequests marketRequests)).errs i)) = 0 := by
    rw [List.countP_eq_zero]
    intro i hi
    have hi1 : i < (pool (buildRequests marketRequests)).responses.length := List.mem_range.mp hi
    have hi2 : i < (pool (buildRequests marketRequests)).errs.length := by omega
    rw [(hpoint i hi1 _ _ (List.getElem?_eq_getElem hi1) (List.getElem?_eq_getElem hi2)).2]
    simp
  rw [hfailed, hskipped, List.length_range] at hcount
  rw [hfailed] at hf
  simp only [List.nil_append] at hm
  have hmlen : st.markets.length = marketRequests.length - k := by
    rw [hm]
    omega
  have hne : st.markets ≠ [] := by
    intro h0
    rw [h0] at hmlen
    simp only [List.length_nil] at hmlen
    omega
  rcases conclude_cases st with ⟨h1, _⟩ | ⟨_, _, h2⟩ | ⟨_, h1, _⟩
  · exact absurd h1 hne
  · rw [h2, hf, Nat.zero_add] at hfetch
    exact ⟨st.markets, _, hfetch, hmlen, rfl, rfl⟩
  · omega

/-! ## The conversion step -/

theorem summarize_converted {F : Type} (env : Env F) (httpGet : String → HttpReply F)
    (request : MarketRequest) (result0 : ChartResult F) (close : List F) {m : Market F}
    (hc : request.Currency ≠ "") (husd : result0.Meta.Currency = "USD")
    (h : summarize env httpGet request result0 close = .appended m) :
    ∃ rate, FetchUSDExchangeRate httpGet request.Currency = .ok rate ∧
      m = summary env request (env.mul result0.Meta.RegularMarketPrice rate)
        (env.mul (previousOf env result0.Meta.RegularMarketPrice (lastDays close)) rate)
        ((env.currencyToSymbol request.Currency).getD "")
        (env.SvgPolylineCoordsFromYValues 100 50
          (env.maybeCopySliceWithoutZeroValues (lastDays close))) := by
  unfold summarize convertAndSummarize at h
  rw [if_pos hc] at h
  cases hr : FetchUSDExchangeRate httpGet request.Currency with
  | error msg =>
    rw [hr] at h
    cases h
  | ok rate =>
    rw [hr] at h
    simp only [husd, if_true] at h
    exact ⟨rate, rfl, (Iteration.appended.inj h).symm⟩

theorem summarize_unconverted {F : Type} (env : Env F) (httpGet : String → HttpReply F)
    (request : MarketRequest) (result0 : ChartResult F) (close : List F) {m : Market F}
    (hc : ¬ (request.Currency ≠ "" ∧ result0.Meta.Currency = "USD"))
    (h : summarize env httpGet request result0 close = .appended m) :
    m = summary env request result0.Meta.RegularMarketPrice
        (previousOf env result0.Meta.RegularMarketPrice (lastDays close))
        (nativeSymbol env result0.Meta.Currency)
        (env.SvgPolylineCoordsFromYValues 100 50
          (env.maybeCopySliceWithoutZeroValues (lastDays close))) := by
  unfold summarize convertAndSummarize at h
  by_cases hcur : request.Currency ≠ ""
  · have husd : ¬ result0.Meta.Currency = "USD" := fun hu => hc ⟨hcur, hu⟩
    rw [if_pos hcur] at h
    cases hr : FetchUSDExchangeRate httpGet request.Currency with
    | error msg =>
      rw [hr] at h
      cases h
    | ok rate =>
      rw [hr] at h
      simp only [husd, if_false] at h
      exact (Iteration.appended.inj h).symm
  · rw [if_neg hcur] at h
    exact (Iteration.appended.inj h).symm

/-- The value of `previous` before conversion: the second-to-last point of the series
when there are at least two points and that point is non-zero, the latest price
otherwise. -/
theorem previousOf_spec {F : Type} (env : Env F) (regularMarketPrice : F) (prices : List F) :
    (∀ p, 2 ≤ prices.length → prices[prices.length - 2]? = some p → env.neZero p = true →
      previousOf env regularMarketPrice prices = p) ∧
    ((prices.length < 2 ∨ ∃ p, prices[prices.length - 2]? = some p ∧ env.neZero p = false) →
      previousOf env regularMarketPrice prices = regularMarketPrice) := by
  refine ⟨?_, ?_⟩
  · intro p h2 hp hz
    simp [previousOf, hp, h2, hz]
  · intro h
    rcases h with h | ⟨p, hp, hz⟩
    · have h2 : ¬ 2 ≤ prices.length := by omega
      unfold previousOf
      cases prices[prices.length - 2]? <;> simp [h2]
    · simp [previousOf, hp, hz]

/-- Where a returned summary comes from and how its price and percent change were
computed. -/
theorem summary_origin {F : Type} (env : Env F)
    (pool : List String → PoolResult F) (httpGet : Nat → String → HttpReply F)
    (marketRequests : List MarketRequest) (ms : List (Market F)) (e : Option FetchError)
    (m : Market F)
    (h : FetchMarketsDataFromYahoo env pool httpGet marketRequests = .ok (ms, e))
    (hm : m ∈ ms) :
    ∃ i request response result0 close,
      marketRequests[i]? = some request ∧
      (pool (buildRequests marketRequests)).responses[i]? = some response ∧
      firstSeries response = some (result0, close) ∧ m.MarketRequest = request ∧
      ((request.Currency ≠ "" ∧ result0.Meta.Currency = "USD") →
        ∃ r, FetchUSDExchangeRate (httpGet i) request.Currency = .ok r ∧
          m.Price = env.mul result0.Meta.RegularMarketPrice r ∧
          m.PercentChange = env.percentChange (env.mul result0.Meta.RegularMarketPrice r)
            (env.mul (previousOf env result0.Meta.RegularMarketPrice (lastDays close)) r)) ∧
      (¬ (request.Currency ≠ "" ∧ result0.Meta.Currency = "USD") →
        m.Price = result0.Meta.RegularMarketPrice ∧
        m.PercentChange = env.percentChange result0.Meta.RegularMarketPrice
          (previousOf env result0.Meta.RegularMarketPrice (lastDays close))) := by
  obtain ⟨i, hi⟩ := fetch_mem env pool httpGet marketRequests h hm
  obtain ⟨request, response, result0, close, h1, _, h3, h4, h5, h6⟩ :=
    iteration_appended_inv env (httpGet i) marketRequests _ _ i hi
  refine ⟨i, request, response, result0, close, h1, h3, h4, h6, ?_, ?_⟩
  · intro hc
    obtain ⟨r, hr, hmr⟩ :=
      summarize_converted env (httpGet i) request result0 close hc.1 hc.2 h5
    exact ⟨r, hr, by rw [hmr]; rfl, by rw [hmr]; rfl⟩
  · intro hc
    have hmr := summarize_unconverted env (httpGet i) request result0 close hc h5
    exact ⟨by rw [hmr]; rfl, by rw [hmr]; rfl⟩

/-! ## C4 -/

/-- C4 (amended). Every returned summary comes from an index `i` whose response has a
first result and quote series. If the request at `i` names a preferred currency (whether
or not it differs from the native one) and the native currency is USD, the exchange-rate
fetch succeeded with some rate `r`, `Price` is the latest price times `r` and
`PercentChange` is computed from the latest and previous prices both times `r`. In every
other case `Price` is the latest price and `PercentChange` is computed from the unscaled
latest and previous prices. -/
theorem C4_conversion_iff_preferred_set_and_native_usd {F : Type} (env : Env F)
    (pool : List String → PoolResult F) (httpGet : Nat → String → HttpReply F)
    (marketRequests : List MarketRequest) (ms : List (Market F)) (e : Option FetchError)
    (m : Market F)
    (h : FetchMarketsDataFromYahoo env pool httpGet marketRequests = .ok (ms, e))
    (hm : m ∈ ms) :
    ∃ i request response result0 close,
      marketRequests[i]? = some request ∧
      (pool (buildRequests marketRequests)).responses[i]? = some response ∧
      firstSeries response = some (result0, close) ∧ m.MarketRequest = request ∧
      ((request.Currency ≠ "" ∧ result0.Meta.Currency = "USD") →
        ∃ r, FetchUSDExchangeRate (httpGet i) request.Currency = .ok r ∧
          m.Price = env.mul result0.Meta.RegularMarketPrice r ∧
          m.PercentChange = env.percentChange (env.mul result0.Meta.RegularMarketPrice r)
            (env.mul (previousOf env result0.Meta.RegularMarketPrice (lastDays close)) r)) ∧
      (¬ (request.Currency ≠ "" ∧ result0.Meta.Currency = "USD") →
        m.Price = result0.Meta.RegularMarketPrice ∧
        m.PercentChange = env.percentChange result0.Meta.RegularMarketPrice
          (previousOf env result0.Meta.RegularMarketPrice (lastDays close))) :=
  summary_origin env pool httpGet marketRequests ms e m h hm

/-! ## C5 -/

/-- C5 (amended). Every returned summary comes from a response with a first result and
quote series `close`, and its `PercentChange` is computed with a previous price `previous`
(scaled, like the price, by the rate when a conversion took place) such that: `previous`
is the second-to-last point of the last `marketChartDays` points of `close` when there are
at least two points and that point is non-zero, and otherwise `previous` is the latest
price `regularMarketPrice` (not `chartPreviousClose`). -/
theorem C5_previous_defaults_to_latest_price {F : Type} (env : Env F)
    (pool : List String → PoolResult F) (httpGet : Nat → String → HttpReply F)
    (marketRequests : List MarketRequest) (ms : List (Market F)) (e : Option FetchError)
    (m : Market F)
    (h : FetchMarketsDataFromYahoo env pool httpGet marketRequests = .ok (ms, e))
    (hm : m ∈ ms) :
    ∃ (i : Nat) (request : MarketRequest) (response : marketResponseJson F)
        (result0 : ChartResult F) (close : List F) (previous : F),
      marketRequests[i]? = some request ∧
      (pool (buildRequests marketRequests)).responses[i]? = some response ∧
      firstSeries response = some (result0, close) ∧
      (∀ p, 2 ≤ (lastDays close).length →
        (lastDays close)[(lastDays close).length - 2]? = some p → env.neZero p = true →
        previous = p) ∧
      (((lastDays close).length < 2 ∨
          ∃ p, (lastDays close)[(lastDays close).length - 2]? = some p ∧
            env.neZero p = false) →
        previous = result0.Meta.RegularMarketPrice) ∧
      (m.PercentChange = env.percentChange result0.Meta.RegularMarketPrice previous ∨
        ∃ r, FetchUSDExchangeRate (httpGet i) request.Currency = .ok r ∧
          m.PercentChange = env.percentChange (env.mul result0.Meta.RegularMarketPrice r)
            (env.mul previous r)) := by
  obtain ⟨i, request, response, result0, close, h2, h3, h4, _, h5, h6⟩ :=
    summary_origin env pool httpGet marketRequests ms e m h hm
  have hspec := previousOf_spec env result0.Meta.RegularMarketPrice (lastDays close)
  refine ⟨i, request, response, result0, close, _, h2, h3, h4, hspec.1, hspec.2, ?_⟩
  by_cases hc : request.Currency ≠ "" ∧ result0.Meta.Currency = "USD"
  · obtain ⟨r, hr, _, hp⟩ := h5 hc
    exact Or.inr ⟨r, hr, hp⟩
  · exact Or.inl (h6 hc).2

/-! ## C9 -/

theorem firstSeries_inv {F : Type} {response : marketResponseJson F} {result0 : ChartResult F}
    {close : List F} (h : firstSeries response = some (result0, close)) :
    ∃ rest quote0 quotes, response.Chart.Result = result0 :: rest ∧
      result0.Indicators.Quote = quote0 :: quotes ∧ quote0.Close = close := by
  unfold firstSeries at h
  split at h
  · rename_i r0 rest hres
    split at h
    · rename_i q0 quotes hquote
      simp only [Option.some.injEq, Prod.mk.injEq] at h
      obtain ⟨h1, h2⟩ := h
      subst h1
      exact ⟨rest, q0, quotes, hres, hquote, h2⟩
    · cases h
  · cases h

/-- Two networks give the same iteration when they give the same summary step for the
request at `i`. -/
theorem iteration_congr {F : Type} (env : Env F) (httpGet httpGet2 : String → HttpReply F)
    (marketRequests : List MarketRequest) (responses : List (marketResponseJson F))
    (errs : List (Option String)) (i : Nat)
    (h : ∀ request, marketRequests[i]? = some request → ∀ result0 close,
      summarize env httpGet request result0 close = summarize env httpGet2 request result0 close) :
    iteration env httpGet marketRequests responses errs i
      = iteration env httpGet2 marketRequests responses errs i := by
  cases herr : errs[i]? with
  | none => simp [iteration, index_error_of_getElem? herr, bind, Except.bind]
  | some e =>
    cases hreq : marketRequests[i]? with
    | none =>
      cases e with
      | some msg =>
        simp [iteration, index_of_getElem? herr, index_error_of_getElem? hreq, bind, Except.bind]
      | none =>
        cases hresp : responses[i]? with
        | none =>
          simp [iteration, index_of_getElem? herr, index_error_of_getElem? hresp, bind,
            Except.bind, pure, Except.pure]
        | some response =>
          cases hres : response.Chart.Result with
          | nil =>
            simp [iteration, index_of_getElem? herr, index_of_getElem? hresp,
              index_error_of_getElem? hreq, hres, bind, Except.bind, pure, Except.pure]
          | cons result0 rest =>
            cases hquote : result0.Indicators.Quote with
            | nil =>
              rw [iteration_of_noQuote env httpGet marketRequests responses errs i herr hresp
                  hres hquote,
                iteration_of_noQuote env httpGet2 marketRequests responses errs i herr hresp
                  hres hquote]
            | cons quote0 quotes =>
              simp [iteration, index_of_getElem? herr, index_of_getElem? hresp,
                index_error_of_getElem? hreq, hres, hquote, index_zero_cons, chartWindow_eq,
                previousPrice_eq, bind, Except.bind, pure, Except.pure]
    | some request =>
      cases e with
      | some msg =>
        rw [iteration_of_err env httpGet marketRequests responses errs i herr hreq,
          iteration_of_err env httpGet2 marketRequests responses errs i herr hreq]
      | none =>
        cases hresp : responses[i]? with
        | none =>
          simp [iteration, index_of_getElem? herr, index_error_of_getElem? hresp, bind,
            Except.bind, pure, Except.pure]
        | some response =>
          cases hres : response.Chart.Result with
          | nil =>
            rw [iteration_of_empty env httpGet marketRequests responses errs i herr hresp hres
                hreq,
              iteration_of_empty env httpGet2 marketRequests responses errs i herr hresp hres
                hreq]
          | cons result0 rest =>
            cases hquote : result0.Indicators.Quote with
            | nil =>
              rw [iteration_of_noQuote env httpGet marketRequests responses errs i herr hresp
                  hres hquote,
                iteration_of_noQuote env httpGet2 marketRequests responses errs i herr hresp
                  hres hquote]
            | cons quote0 quotes =>
              rw [iteration_of_quote env httpGet marketRequests responses errs i herr hresp
                  hres hquote hreq,
                iteration_of_quote env httpGet2 marketRequests responses errs i herr hresp
                  hres hquote hreq, h request hreq]

/-- C9 (amended). The exchange-rate fetch matters for every instrument that names a
preferred currency, whatever its native currency. For the request at index `i`:
if it names no preferred currency, the iteration is the same on any two networks;
if it names one and its task returned a response with a first result and quote series,
then a failed rate fetch makes the iteration skip the instrument, and, when the native
currency is not USD, any two networks on which the rate fetch succeeds give the same
iteration. -/
theorem C9_rate_fetch_whenever_preferred_currency_set {F : Type} (env : Env F)
    (httpGet httpGet2 : String → HttpReply F) (marketRequests : List MarketRequest)
    (responses : List (marketResponseJson F)) (errs : List (Option String)) (i : Nat)
    (request : MarketRequest) (hreq : marketRequests[i]? = some request) :
    (request.Currency = "" →
      iteration env httpGet marketRequests responses errs i
        = iteration env httpGet2 marketRequests responses errs i) ∧
    (∀ (response : marketResponseJson F) (result0 : ChartResult F) (close : List F),
      errs[i]? = some none → responses[i]? = some response →
      firstSeries response = some (result0, close) → request.Currency ≠ "" →
      (∀ msg, FetchUSDExchangeRate httpGet request.Currency = .error msg →
        iteration env httpGet marketRequests responses errs i = .ok .skipped) ∧
      (result0.Meta.Currency ≠ "USD" →
        ∀ rate rate2, FetchUSDExchangeRate httpGet request.Currency = .ok rate →
          FetchUSDExchangeRate httpGet2 request.Currency = .ok rate2 →
          iteration env httpGet marketRequests responses errs i
            = iteration env httpGet2 marketRequests responses errs i)) := by
  refine ⟨?_, ?_⟩
  · intro hc
    apply iteration_congr
    intro request2 hreq2 result0 close
    rw [hreq] at hreq2
    cases hreq2
    simp [summarize, convertAndSummarize, hc]
  · intro response result0 close herr hresp hfirst hc
    obtain ⟨rest, quote0, quotes, hres, hquote, hclose⟩ := firstSeries_inv hfirst
    refine ⟨?_, ?_⟩
    · intro msg hmsg
      rw [iteration_of_quote env httpGet marketRequests responses errs i herr hresp hres hquote
        hreq]
      simp [summarize, convertAndSummarize, hc, hmsg]
    · intro husd rate rate2 hr hr2
      rw [iteration_of_quote env httpGet marketRequests responses errs i herr hresp hres hquote
          hreq,
        iteration_of_quote env httpGet2 marketRequests responses errs i herr hresp hres hquote
          hreq]
      simp [summarize, convertAndSummarize, hc, hr, hr2, husd]

/-! ## The worker pool (`workerPoolDo`, not in this file) -/

theorem PoolState.inv_initial {I O : Type} [Inhabited O] (task : I → O × Option String)
    (data : List I) : (PoolState.initial data : PoolState I O).Inv task data := by
  refine ⟨by simp [PoolState.initial], ?_, ?_⟩
  · intro p hp
    simp only [PoolState.initial, List.append_nil] at hp
    exact List.mem_enum_iff_getElem?.mp hp
  · intro j hj
    left
    refine ⟨(j, data[j]), ?_, rfl⟩
    simp only [PoolState.initial, List.append_nil]
    exact List.mem_enum_iff_getElem?.mpr (List.getElem?_eq_getElem hj)

theorem PoolState.inv_step {I O : Type} (workers : Nat) (task : I → O × Option String)
    (data : List I) (st st2 : PoolState I O) (ev : PoolEvent)
    (hinv : st.Inv task data) (hstep : st.step workers task ev = some st2) :
    st2.Inv task data := by
  obtain ⟨hlen, hitems, hdone⟩ := hinv
  cases ev with
  | start =>
    unfold PoolState.step at hstep
    cases hq : st.queue with
    | nil => simp [hq] at hstep
    | cons item rest =>
      simp only [hq] at hstep
      split at hstep
      · cases hstep
        have hmem : ∀ p,
            p ∈ rest ++ (st.running ++ [item]) ↔ p ∈ st.queue ++ st.running := by
          intro p
          simp only [hq, List.mem_append, List.mem_cons, List.mem_singleton, List.not_mem_nil,
            or_false]
          tauto
        refine ⟨hlen, ?_, ?_⟩
        · intro p hp
          exact hitems p ((hmem p).mp hp)
        · intro j hj
          rcases hdone j hj with ⟨p, hp, hpj⟩ | hd
          · exact Or.inl ⟨p, (hmem p).mpr hp, hpj⟩
          · exact Or.inr hd
      · cases hstep
  | finish worker =>
    unfold PoolState.step at hstep
    cases hw : st.running[worker]? with
    | none => simp [hw] at hstep
    | some item =>
      obtain ⟨i, input⟩ := item
      simp only [hw] at hstep
      cases hstep
      have hin : data[i]? = some input :=
        hitems (i, input) (List.mem_append_right _ (List.getElem?_mem hw))
      have hi : i < data.length := by
        by_contra hcon
        rw [List.getElem?_eq_none (by omega)] at hin
        cases hin
      refine ⟨by simp [hlen], ?_, ?_⟩
      · intro p hp
        apply hitems p
        rcases List.mem_append.mp hp with hp | hp
        · exact List.mem_append_left _ hp
        · exact List.mem_append_right _ (List.mem_of_mem_eraseIdx hp)
      · intro j hj
        by_cases hji : j = i
        · right
          subst hji
          simp only
          rw [List.getElem?_set_self (by omega), hin]
          rfl
        · rcases hdone j hj with ⟨p, hp, hpj⟩ | hd
          · left
            refine ⟨p, ?_, hpj⟩
            rcases List.mem_append.mp hp with hp | hp
            · exact List.mem_append_left _ hp
            · apply List.mem_append_right
              obtain ⟨k, hk, hkp⟩ := List.getElem_of_mem hp
              refine List.mem_eraseIdx_iff_getElem?.mpr ⟨k, ?_, ?_⟩
              · intro hkw
                subst hkw
                rw [List.getElem?_eq_getElem hk, hkp] at hw
                cases hw
                exact hji hpj.symm
              · rw [List.getElem?_eq_getElem hk, hkp]
          · right
            simp only
            rw [List.getElem?_set_ne (fun h => hji h.symm)]
            exact hd

theorem PoolState.inv_run {I O : Type} (workers : Nat) (task : I → O × Option String)
    (data : List I) (schedule : List PoolEvent) :
    ∀ (st st2 : PoolState I O), st.Inv task data → st.run workers task schedule = some st2 →
      st2.Inv task data := by
  induction schedule with
  | nil =>
    intro st st2 hinv hrun
    simp only [PoolState.run, List.foldlM_nil, pure, Option.some.injEq] at hrun
    rw [← hrun]
    exact hinv
  | cons ev rest ih =>
    intro st st2 hinv hrun
    simp only [PoolState.run, List.foldlM_cons] at hrun
    cases hstep : st.step workers task ev with
    | none => simp [hstep, bind] at hrun
    | some st1 =>
      simp only [hstep, bind, Option.bind] at hrun
      exact ih st1 st2 (PoolState.inv_step workers task data st st1 ev hinv hstep) hrun

/-- Past the barrier every slot holds the outcome of the task on the input of its index. -/
theorem PoolState.slots_of_done {I O : Type} (task : I → O × Option String) (data : List I)
    (st : PoolState I O) (hinv : st.Inv task data) (hq : st.queue.length = 0)
    (hr : st.running.length = 0) : st.slots = data.map task := by
  obtain ⟨hlen, _, hdone⟩ := hinv
  have hq0 := List.length_eq_zero.mp hq
  have hr0 := List.length_eq_zero.mp hr
  apply List.ext_getElem?
  intro j
  by_cases hj : j < data.length
  · rcases hdone j hj with ⟨p, hp, _⟩ | hd
    · simp [hq0, hr0] at hp
    · rw [hd, List.getElem?_map]
  · rw [List.getElem?_eq_none (by omega), List.getElem?_eq_none (by simp; omega)]

theorem sequentialSchedule_succ (n : Nat) :
    sequentialSchedule (n + 1) = .start :: .finish 0 :: sequentialSchedule n := by
  simp [sequentialSchedule, List.replicate_succ]

/-- With at least one worker the sequential schedule is a complete interleaving. -/
theorem PoolState.run_sequential {I O : Type} (workers : Nat) (task : I → O × Option String)
    (hw : 0 < workers) (q : List (Nat × I)) :
    ∀ (st : PoolState I O), st.queue = q → st.running = [] →
      ∃ st2, st.run workers task (sequentialSchedule q.length) = some st2 ∧
        st2.queue.length = 0 ∧ st2.running.length = 0 := by
  induction q with
  | nil =>
    intro st hq hr
    refine ⟨st, ?_, by simp [hq], by simp [hr]⟩
    simp [sequentialSchedule, PoolState.run]
  | cons item rest ih =>
    intro st hq hr
    obtain ⟨st2, h1, h2, h3⟩ := ih
      { queue := rest, running := [], slots := st.slots.set item.1 (task item.2) } rfl rfl
    refine ⟨st2, ?_, h2, h3⟩
    rw [List.length_cons, sequentialSchedule_succ]
    simp only [PoolState.run, List.foldlM_cons] at h1 ⊢
    simp only [PoolState.step, hq, hr, List.length_nil, hw, if_true, bind, Option.bind,
      List.nil_append, List.getElem?_cons_zero, List.eraseIdx_cons_zero]
    exact h1

/-- Every event uses up one unit of the remaining work. -/
theorem PoolState.step_measure {I O : Type} (workers : Nat) (task : I → O × Option String)
    (st st2 : PoolState I O) (ev : PoolEvent) (hstep : st.step workers task ev = some st2) :
    2 * st2.queue.length + st2.running.length + 1 = 2 * st.queue.length + st.running.length := by
  cases ev with
  | start =>
    unfold PoolState.step at hstep
    cases hq : st.queue with
    | nil => simp [hq] at hstep
    | cons item rest =>
      simp only [hq] at hstep
      split at hstep
      · cases hstep
        simp only [List.length_append, List.length_cons, List.length_nil]
        omega
      · cases hstep
  | finish worker =>
    unfold PoolState.step at hstep
    cases hw : st.running[worker]? with
    | none => simp [hw] at hstep
    | some item =>
      obtain ⟨i, input⟩ := item
      simp only [hw] at hstep
      cases hstep
      have hlt : worker < st.running.length := by
        by_contra hcon
        rw [List.getElem?_eq_none (by omega)] at hw
        cases hw
      simp only [List.length_eraseIdx, hlt, if_true]
      omega

theorem PoolState.run_measure {I O : Type} (workers : Nat) (task : I → O × Option String)
    (schedule : List PoolEvent) :
    ∀ (st st2 : PoolState I O), st.run workers task schedule = some st2 →
      schedule.length + 2 * st2.queue.length + st2.running.length
        = 2 * st.queue.length + st.running.length := by
  induction schedule with
  | nil =>
    intro st st2 hrun
    simp only [PoolState.run, List.foldlM_nil, pure, Option.some.injEq] at hrun
    rw [← hrun]
    simp
  | cons ev rest ih =>
    intro st st2 hrun
    simp only [PoolState.run, List.foldlM_cons] at hrun
    cases hstep : st.step workers task ev with
    | none => simp [hstep, bind] at hrun
    | some st1 =>
      simp only [hstep, bind, Option.bind] at hrun
      have h1 := ih st1 st2 hrun
      have h2 := PoolState.step_measure workers task st st1 ev hstep
      simp only [List.length_cons]
      omega

/-- A pool with at least one worker that has not drained can always take another step. -/
theorem PoolState.progress {I O : Type} (workers : Nat) (task : I → O × Option String)
    (hw : 0 < workers) (st : PoolState I O) :
    (st.queue.length = 0 ∧ st.running.length = 0) ∨
      ∃ ev st2, st.step workers task ev = some st2 := by
  cases hr : st.running with
  | cons item rest =>
    right
    exact ⟨.finish 0, _, by simp [PoolState.step, hr]; rfl⟩
  | nil =>
    cases hq : st.queue with
    | nil => exact Or.inl ⟨by simp, by simp⟩
    | cons item rest =>
      right
      exact ⟨.start, _, by simp [PoolState.step, hq, hr, hw]; rfl⟩

/-! ## C8 -/

/-- C8. For every worker count, task, input list and every interleaving of the workers
after which the pool has drained, `workerPoolDo` returns an outcome list and an error list
that are the task's outcome and error on each input, position by position (hence of the
length of the input list, whichever tasks fail and in whichever order they complete), and
no top-level error. With at least one worker such a complete interleaving exists, and no
interleaving gets stuck before the pool has drained: after any sequence of events the
remaining work has shrunk by the number of events, and either the pool has drained or
another event can happen. -/
theorem C8_pool_outcomes_are_index_aligned {I O : Type} [Inhabited O] (workers : Nat)
    (task : I → O × Option String) (data : List I) :
    (∀ schedule responses errs err,
      workerPoolDo workers task data schedule = some (responses, errs, err) →
      responses = data.map (fun input => (task input).1) ∧
      errs = data.map (fun input => (task input).2) ∧ err = none ∧
      responses.length = data.length ∧ errs.length = data.length) ∧
    (0 < workers →
      ∃ out, workerPoolDo workers task data (sequentialSchedule data.length) = some out) ∧
    (0 < workers → ∀ schedule st,
      (PoolState.initial data : PoolState I O).run workers task schedule = some st →
      schedule.length + 2 * st.queue.length + st.running.length = 2 * data.length ∧
      ((st.queue.length = 0 ∧ st.running.length = 0) ∨
        ∃ ev st2, st.step workers task ev = some st2)) := by
  refine ⟨?_, ?_, ?_⟩
  · intro schedule responses errs err h
    unfold workerPoolDo at h
    split at h
    · rename_i h0
      have hnil := List.length_eq_zero.mp h0
      simp only [Option.some.injEq, Prod.mk.injEq] at h
      obtain ⟨h1, h2, h3⟩ := h
      subst h1 h2 h3
      simp [hnil]
    · cases hrun : (PoolState.initial data : PoolState I O).run workers task schedule with
      | none => simp [hrun] at h
      | some st =>
        simp only [hrun] at h
        split at h
        · rename_i hdone
          have hinv := PoolState.inv_run workers task data schedule _ st
            (PoolState.inv_initial task data) hrun
          have hslots := PoolState.slots_of_done task data st hinv hdone.1 hdone.2
          simp only [Option.some.injEq, Prod.mk.injEq] at h
          obtain ⟨h1, h2, h3⟩ := h
          subst h1 h2 h3
          simp [hslots]
        · cases h
  · intro hw
    unfold workerPoolDo
    split
    · exact ⟨_, rfl⟩
    · obtain ⟨st2, h1, h2, h3⟩ := PoolState.run_sequential workers task hw data.enum
        (PoolState.initial data : PoolState I O) rfl rfl
      rw [List.enum_length] at h1
      rw [h1]
      simp [h2, h3]
  · intro hw schedule st hrun
    refine ⟨?_, PoolState.progress workers task hw st⟩
    have h := PoolState.run_measure workers task schedule _ st hrun
    simp only [PoolState.initial, List.enum_length, List.length_nil] at h
    omega

/-! ## Concrete runs -/

/-! ### C1 -/

/-- C1, counterexample. Three requests, exactly one task carries an error, a second task
succeeds with an empty result list: the call returns one summary (not two) and reports two
failures (not one). -/
theorem C1_counterexample_empty_result_is_a_failure :
    (threePool (buildRequests threeRequests)).errs.countP Option.isSome = 1 ∧
    threeRequests.length = 3 ∧
    FetchMarketsDataFromYahoo intEnv threePool netDown threeRequests
      = .ok ([plainSummary "CCC"], some (.wrapFailed .ErrPartialContent 2)) :=
  ⟨rfl, rfl, rfl⟩

/-- C1 (amended), instance: the same run has two failed outcomes out of three, and returns
one summary with a partial-content error reporting two failures. -/
theorem C1_partialContent_witness :
    ∃ ms err, FetchMarketsDataFromYahoo intEnv threePool netDown threeRequests
        = .ok (ms, some err) ∧
      ms.length = threeRequests.length - 2 ∧
      err.Is .ErrPartialContent = true ∧ err.failedCount = some 2 :=
  C1_partialContent_counts_failed_outcomes intEnv threePool netDown threeRequests 2
    rfl rfl rfl rfl (by decide) (by decide)
    (by
      intro i response h1 h2
      match i with
      | 0 => simp [threePool, poolReturning] at h1
      | 1 =>
        simp only [threePool, poolReturning, List.getElem?_cons_succ, List.getElem?_cons_zero,
          Option.some.injEq] at h2
        rw [← h2]
        rfl
      | 2 =>
        simp only [threePool, poolReturning, List.getElem?_cons_succ, List.getElem?_cons_zero,
          Option.some.injEq] at h2
        rw [← h2]
        rfl
      | n + 3 => simp [threePool, poolReturning] at h1)
    (by
      intro i request h1 h2
      match i with
      | 0 =>
        simp only [threeRequests, List.getElem?_cons_zero, Option.some.injEq] at h1
        rw [← h1] at h2
        exact absurd rfl h2
      | 1 =>
        simp only [threeRequests, List.getElem?_cons_succ, List.getElem?_cons_zero,
          Option.some.injEq] at h1
        rw [← h1] at h2
        exact absurd rfl h2
      | 2 =>
        simp only [threeRequests, List.getElem?_cons_succ, List.getElem?_cons_zero,
          Option.some.injEq] at h1
        rw [← h1] at h2
        exact absurd rfl h2
      | n + 3 => simp [threeRequests] at h1)

/-! ### C2 -/

/-- C2, instance: two requests whose tasks both fail give no summaries and `ErrNoContent`. -/
theorem C2_all_tasks_fail_witness :
    ∃ err, FetchMarketsDataFromYahoo intEnv
        (poolReturning [emptyResponse, emptyResponse] [some "timeout", some "status 500"])
        netDown [⟨"AAA", ""⟩, ⟨"BBB", "EUR"⟩] = .ok ([], some err) ∧
      err.Is .ErrNoContent = true :=
  (C2_error_is_nil_noContent_or_partialContent intEnv
    (poolReturning [emptyResponse, emptyResponse] [some "timeout", some "status 500"])
    netDown [⟨"AAA", ""⟩, ⟨"BBB", "EUR"⟩]).2.2 rfl rfl (by
      intro e he
      simp only [poolReturning, List.mem_cons, List.mem_singleton, List.not_mem_nil,
        or_false] at he
      rcases he with he | he <;> simp [he])

/-! ### C3 -/

/-- C3, failing run. Two requests, both tasks succeed with data; the exchange-rate fetch
for the second fails. The call returns one summary for two requests and a nil error: the
skipped instrument is not reflected in the failure count. -/
theorem C3_rate_failure_returns_nil_error :
    FetchMarketsDataFromYahoo intEnv
        (poolReturning [quoteResponse "USD" 50 45 [48, 49, 50], quoteResponse "USD" 10 9 [9, 10]]
          [none, none])
        netDown [⟨"AAA", ""⟩, ⟨"BBB", "EUR"⟩]
      = .ok ([plainSummary "AAA"], none) :=
  rfl

/-! ### C4 -/

/-- C4, counterexample. The preferred currency equals the native currency (both USD) and
the rate fetch answers 2: the latest price 10 is returned as 20, and the previous price 9
enters the percent change as 18. -/
theorem C4_counterexample_preferred_equals_native :
    FetchMarketsDataFromYahoo intEnv usdPool (netRate 2) usdRequests
      = .ok ([usdSummary], none) ∧
    usdSummary.Price = 20 ∧ usdSummary.Price ≠ 10 ∧
    usdSummary.PercentChange = intEnv.percentChange 20 18 :=
  ⟨rfl, rfl, by decide, rfl⟩

/-- C4 (amended), instance: the same run. -/
theorem C4_conversion_witness :
    FetchMarketsDataFromYahoo intEnv usdPool (netRate 2) usdRequests
      = .ok ([usdSummary], none) ∧
    usdSummary ∈ [usdSummary] ∧
    ∃ i request response result0 close,
      usdRequests[i]? = some request ∧
      (usdPool (buildRequests usdRequests)).responses[i]? = some response ∧
      firstSeries response = some (result0, close) ∧ usdSummary.MarketRequest = request ∧
      ((request.Currency ≠ "" ∧ result0.Meta.Currency = "USD") →
        ∃ r, FetchUSDExchangeRate (netRate 2 i) request.Currency = .ok r ∧
          usdSummary.Price = intEnv.mul result0.Meta.RegularMarketPrice r ∧
          usdSummary.PercentChange
            = intEnv.percentChange (intEnv.mul result0.Meta.RegularMarketPrice r)
                (intEnv.mul (previousOf intEnv result0.Meta.RegularMarketPrice (lastDays close))
                  r)) ∧
      (¬ (request.Currency ≠ "" ∧ result0.Meta.Currency = "USD") →
        usdSummary.Price = result0.Meta.RegularMarketPrice ∧
        usdSummary.PercentChange = intEnv.percentChange result0.Meta.RegularMarketPrice
          (previousOf intEnv result0.Meta.RegularMarketPrice (lastDays close))) :=
  ⟨rfl, List.mem_singleton.mpr rfl,
    C4_conversion_iff_preferred_set_and_native_usd intEnv usdPool (netRate 2) usdRequests
      [usdSummary] none usdSummary rfl (List.mem_singleton.mpr rfl)⟩

/-! ### C5 -/

/-- C5, counterexample. Latest price 50, `chartPreviousClose` 45, closes 48, 0, 50 (the
second-to-last point is zero): the percent change is computed from 50 and 50, not from 50
and 45. -/
theorem C5_counterexample_previous_close_unused :
    FetchMarketsDataFromYahoo intEnv flatPool netDown flatRequests
      = .ok ([flatSummary], none) ∧
    flatSummary.PercentChange = intEnv.percentChange 50 50 ∧
    flatSummary.PercentChange ≠ intEnv.percentChange 50 45 :=
  ⟨rfl, rfl, by decide⟩

/-- C5 (amended), instance: the same run. -/
theorem C5_previous_witness :
    FetchMarketsDataFromYahoo intEnv flatPool netDown flatRequests
      = .ok ([flatSummary], none) ∧
    flatSummary ∈ [flatSummary] ∧
    ∃ (i : Nat) (request : MarketRequest) (response : marketResponseJson Int)
        (result0 : ChartResult Int) (close : List Int) (previous : Int),
      flatRequests[i]? = some request ∧
      (flatPool (buildRequests flatRequests)).responses[i]? = some response ∧
      firstSeries response = some (result0, close) ∧
      (∀ p, 2 ≤ (lastDays close).length →
        (lastDays close)[(lastDays close).length - 2]? = some p → intEnv.neZero p = true →
        previous = p) ∧
      (((lastDays close).length < 2 ∨
          ∃ p, (lastDays close)[(lastDays close).length - 2]? = some p ∧
            intEnv.neZero p = false) →
        previous = result0.Meta.RegularMarketPrice) ∧
      (flatSummary.PercentChange
          = intEnv.percentChange result0.Meta.RegularMarketPrice previous ∨
        ∃ r, FetchUSDExchangeRate (netDown i) request.Currency = .ok r ∧
          flatSummary.PercentChange
            = intEnv.percentChange (intEnv.mul result0.Meta.RegularMarketPrice r)
                (intEnv.mul previous r)) :=
  ⟨rfl, List.mem_singleton.mpr rfl,
    C5_previous_defaults_to_latest_price intEnv flatPool netDown flatRequests
      [flatSummary] none flatSummary rfl (List.mem_singleton.mpr rfl)⟩

/-! ### C6 -/

/-- C6, failing run. The instrument is quoted in USD and requests the currency `XYZ`, for
which the table has no entry; the rate fetch succeeds. The returned summary has the empty
string as currency symbol, not the code `XYZ`. -/
theorem C6_converted_symbol_is_empty_without_table_entry :
    intEnv.currencyToSymbol "XYZ" = none ∧
    FetchMarketsDataFromYahoo intEnv usdPool (netRate 2) [⟨"AAA", "XYZ"⟩]
      = .ok ([{ MarketRequest := ⟨"AAA", "XYZ"⟩, Price := 20, Currency := "",
                PercentChange := 20018, SvgChartPoints := "[8, 9, 10]" }], none) :=
  ⟨rfl, rfl⟩

/-! ### C7 -/

/-- C7, instance: of two requests the first task fails; the one summary is that of the
second request. -/
theorem C7_input_order_witness :
    FetchMarketsDataFromYahoo intEnv mixedPool netDown mixedRequests
      = .ok ([plainSummary "BBB"], some (.wrapFailed .ErrPartialContent 1)) ∧
    ([plainSummary "BBB"].map (fun m => m.MarketRequest)).Sublist mixedRequests ∧
    ∃ indices : List Nat, indices.Pairwise (fun i j => i < j) ∧
      List.Forall₂
        (fun i m => ∃ request response result0 close,
          mixedRequests[i]? = some request ∧
          (mixedPool (buildRequests mixedRequests)).errs[i]? = some none ∧
          (mixedPool (buildRequests mixedRequests)).responses[i]? = some response ∧
          firstSeries response = some (result0, close) ∧
          summarize intEnv (netDown i) request result0 close = .appended m ∧
          m.MarketRequest = request)
        indices [plainSummary "BBB"] :=
  ⟨rfl, C7_summaries_in_input_order intEnv mixedPool netDown mixedRequests
    [plainSummary "BBB"] (some (.wrapFailed .ErrPartialContent 1)) rfl⟩

/-! ### C8 -/

/-- C8, instance: three inputs, two workers, the tasks complete in the order `bb`, `b`,
`a`, and the task on `b` fails; outcomes and errors are in input order. -/
theorem C8_out_of_order_witness :
    workerPoolDo 2 lengthTask ["a", "bb", "b"]
        [.start, .start, .finish 1, .start, .finish 1, .finish 0]
      = some ([1, 2, 1], [none, none, some "boom"], none) ∧
    ([1, 2, 1] : List Nat) = ["a", "bb", "b"].map (fun input => (lengthTask input).1) ∧
    ([none, none, some "boom"] : List (Option String))
      = ["a", "bb", "b"].map (fun input => (lengthTask input).2) ∧
    (none : Option String) = none ∧
    ([1, 2, 1] : List Nat).length = ["a", "bb", "b"].length ∧
    ([none, none, some "boom"] : List (Option String)).length = ["a", "bb", "b"].length :=
  ⟨rfl, (C8_pool_outcomes_are_index_aligned 2 lengthTask ["a", "bb", "b"]).1
    [.start, .start, .finish 1, .start, .finish 1, .finish 0] _ _ _ rfl⟩

/-! ### C9 -/

/-- C9, counterexample. The instrument is quoted in EUR and requests JPY. When the rate
fetch succeeds the summary is returned with the price unchanged; when the rate fetch
fails, on otherwise the same run, no summary is returned. -/
theorem C9_counterexample_rate_failure_drops_non_usd_instrument :
    FetchMarketsDataFromYahoo intEnv (poolReturning [quoteResponse "EUR" 10 7 [8, 9, 10]] [none])
        (netRate 150) [⟨"AAA", "JPY"⟩]
      = .ok ([{ MarketRequest := ⟨"AAA", "JPY"⟩, Price := 10, Currency := "€",
                PercentChange := 10009, SvgChartPoints := "[8, 9, 10]" }], none) ∧
    FetchMarketsDataFromYahoo intEnv (poolReturning [quoteResponse "EUR" 10 7 [8, 9, 10]] [none])
        netDown [⟨"AAA", "JPY"⟩]
      = .ok ([], some (.sentinel .ErrNoContent)) :=
  ⟨rfl, rfl⟩

/-- C9 (amended), instance: for a request without preferred currency the iteration is the
same whether the network is down or answers with a rate. -/
theorem C9_no_preferred_currency_witness :
    flatRequests[0]? = some ⟨"AAA", ""⟩ ∧
    (⟨"AAA", ""⟩ : MarketRequest).Currency = "" ∧
    iteration intEnv (netDown 0) flatRequests [quoteResponse "USD" 50 45 [48, 49, 50]] [none] 0
      = iteration intEnv (netRate 2 0) flatRequests [quoteResponse "USD" 50 45 [48, 49, 50]]
          [none] 0 :=
  ⟨rfl, rfl, (C9_rate_fetch_whenever_preferred_currency_set intEnv (netDown 0) (netRate 2 0)
    flatRequests [quoteResponse "USD" 50 45 [48, 49, 50]] [none] 0 ⟨"AAA", ""⟩ rfl).1 rfl⟩

/-! ### C10 -/

/-- C10, failing run. The task succeeds with a response whose result list has one entry
and whose `indicators.quote` list is empty: the expression `Quote[0]` of line 88 is out of
range and the call panics. -/
theorem C10_empty_quote_list_panics :
    FetchMarketsDataFromYahoo intEnv (poolReturning [noQuoteResponse] [none]) netDown
        [⟨"AAA", ""⟩]
      = .error (.indexOutOfRange 0 0) :=
  rfl

end Feed
